import Mathlib

/-!
# A verification model of marshmallow's `UnmarshalFromJSONMap` decoder

This file is a shallow embedding of the map-input decoder of the
PerimeterX/marshmallow library (`unmarshal_from_json_map.go`, together
with `options.go` and `cache.go`).  Go's dynamically typed
`interface{}` values are embedded as the inductive type `GoVal`,
reflective struct descriptions as `FieldType`/`FieldSchema`, and the
decoder functions (`UnmarshalFromJSONMap`, `populateStruct`,
`valueByReflectType`, `buildSlice`, `buildArray`, `buildMap`,
`buildStruct`) are translated one-to-one into pure functions.  The
decoder's mutable error state (`mapDecoder.err` / `mapDecoder.errs`,
filled by `addError`) is modelled by returning the ordered list of
recorded errors; a `crashed` flag models the runtime panic raised by
`reflect.Value.Index` when an index is out of range.

Reflection helpers that live outside the decoder file
(`isValidValue`, `mapStructFields`, `assignValue`, `safeReflectValue`,
`primitiveConverters`, the error constructors) are not part of the
given sources; they are modelled from the specification and marked as
such in their doc comments.
-/

namespace Marshmallow

/-- The three decoding modes of `options.go` (`Mode` is `uint8` there;
only the three declared constants are modelled). -/
inductive Mode where
  | failOnFirstError
  | allowMultipleErrors
  | failOverToOriginalValue
deriving DecidableEq, Repr

/-- Decode options (`unmarshalOptions`).  `skipPopulateStruct` is the
boolean consulted by `populateStruct`; the variadic option-function
builder is not modelled, an options value is passed directly. -/
structure UOptions where
  mode : Mode
  skipPopulateStruct : Bool
deriving DecidableEq, Repr

mutual
/-- Reflective description of a Go field type, as dispatched on by
`valueByReflectType`.  All primitive kinds handled by a primitive
converter are collapsed into `boolT`/`intT`/`floatT`/`stringT`/`ifaceT`
(integer widths and float widths do not matter for the properties
proved here).  `customT fails errId` stands for a concrete Go type
whose pointer form implements `UnmarshalerFromJSONMap` and whose
`UnmarshalJSONFromMap` implementation returns an error (identified by
`errId`) iff `fails` is true; `FieldType.ptrT (customT ..)` then stands
for a pointer type that itself implements the interface.
`unsupportedT` stands for any kind with no primitive converter and no
case in the kind switch (e.g. `chan`, `func`). -/
inductive FieldType where
  | boolT
  | intT
  | floatT
  | stringT
  | ifaceT
  | sliceT (elem : FieldType)
  | arrayT (size : Nat) (elem : FieldType)
  | mapT (key : FieldType) (value : FieldType)
  | structT (fields : FieldSchema)
  | ptrT (elem : FieldType)
  | customT (fails : Bool) (errId : Nat)
  | unsupportedT

/-- The ordered list of decodable fields of a struct type: JSON field
name paired with field type; the position in the list is the field
index. -/
inductive FieldSchema where
  | nil
  | cons (name : String) (t : FieldType) (rest : FieldSchema)
end

/-- Go runtime values as far as the decoder can observe or build them:
raw JSON-map values (`vnil`, `vbool`, `vstr`, `vnum`, `varr`, `vobj`)
and decoded typed values (`vint`, `vslice`, `varray`, `vmap`,
`vstruct`, `vptr`, `vcustom`).  Typed composites carry their element
types so that Go assignability can be decided. -/
inductive GoVal where
  | vnil
  | vbool (b : Bool)
  | vstr (s : String)
  | vnum (q : ℚ)
  | vint (n : ℤ)
  | varr (elems : List GoVal)
  | vobj (entries : List (String × GoVal))
  | vslice (elem : FieldType) (elems : List GoVal)
  | varray (size : Nat) (elem : FieldType) (elems : List GoVal)
  | vmap (key value : FieldType) (entries : List (GoVal × GoVal))
  | vstruct (fields : FieldSchema) (vals : List GoVal)
  | vptr (pointee : GoVal)
  | vcustom (fails : Bool) (errId : Nat)

/-- Errors recorded by `addError`: `newUnexpectedTypeParseError` and
`newUnsupportedTypeParseError` carry the target type and the path;
`custom` is an error returned verbatim by a custom unmarshaler. -/
inductive Err where
  | unexpectedType (t : FieldType) (path : List String)
  | unsupportedType (t : FieldType) (path : List String)
  | custom (errId : Nat)

/-- Result of one `valueByReflectType` call: the returned
`(interface{}, bool)` pair, the errors recorded through `addError`
during the call (in recording order), and whether the call panicked
(out-of-range `reflect.Value.Index`). -/
structure Res where
  val : GoVal
  ok : Bool
  errs : List Err
  crashed : Bool

/-- The value of `err` returned by `UnmarshalFromJSONMap`:
`ErrInvalidValue`, a single error (fail-on-first-error mode) or a
`MultipleError` aggregate. -/
inductive ErrOut where
  | invalidValue
  | single (e : Err)
  | multiple (es : List Err)

/-- Coercer function type: path, input value, `isPtr` flag to result. -/
abbrev CoFn := List String → GoVal → Bool → Res

mutual
/-- Zero value of a field type (`reflect.Zero`): `nil` for pointer,
interface, slice and map kinds, zero primitives, zero-filled arrays
and structs. -/
def zeroVal : FieldType → GoVal
  | .boolT => .vbool false
  | .intT => .vint 0
  | .floatT => .vnum 0
  | .stringT => .vstr ""
  | .ifaceT => .vnil
  | .sliceT _ => .vnil
  | .arrayT n e => .varray n e (List.replicate n (zeroVal e))
  | .mapT _ _ => .vnil
  | .structT fs => .vstruct fs (zeroVals fs)
  | .ptrT _ => .vnil
  | .customT f i => .vcustom f i
  | .unsupportedT => .vnil

/-- Zero values of all fields of a schema, in field order. -/
def zeroVals : FieldSchema → List GoVal
  | .nil => []
  | .cons _ t rest => zeroVal t :: zeroVals rest
end

/-- Is a value the untyped `nil` interface? -/
def GoVal.isNil : GoVal → Bool
  | .vnil => true
  | _ => false

/-- `safeReflectValue`: modelled from the spec — when the coerced
element is `nil`, the zero value of the element type is used instead
(Go `reflect.Zero`), otherwise the value itself. -/
def safeReflectValue (t : FieldType) (v : GoVal) : GoVal :=
  if v.isNil then zeroVal t else v

mutual
/-- Boolean equality of field types (needed to decide Go
assignability of decoded values to fields). -/
def ftBEq : FieldType → FieldType → Bool
  | .boolT, .boolT => true
  | .intT, .intT => true
  | .floatT, .floatT => true
  | .stringT, .stringT => true
  | .ifaceT, .ifaceT => true
  | .sliceT e, .sliceT e' => ftBEq e e'
  | .arrayT n e, .arrayT n' e' => n == n' && ftBEq e e'
  | .mapT k v, .mapT k' v' => ftBEq k k' && ftBEq v v'
  | .structT fs, .structT fs' => fsBEq fs fs'
  | .ptrT e, .ptrT e' => ftBEq e e'
  | .customT f i, .customT f' i' => f == f' && i == i'
  | .unsupportedT, .unsupportedT => true
  | _, _ => false

/-- Boolean equality on field schemas. -/
def fsBEq : FieldSchema → FieldSchema → Bool
  | .nil, .nil => true
  | .cons n t r, .cons n' t' r' => n == n' && ftBEq t t' && fsBEq r r'
  | _, _ => false
end

/-- Is a Go value assignable (`reflect.Type.AssignableTo`) to a field
of the given type?  Raw JSON composites (`varr`, `vobj`) have Go types
`[]interface{}` / `map[string]interface{}` and are assignable only to
`interface{}` destinations; decoded composites carry their own type. -/
def assignable : FieldType → GoVal → Bool
  | .ifaceT, _ => true
  | .boolT, .vbool _ => true
  | .intT, .vint _ => true
  | .floatT, .vnum _ => true
  | .stringT, .vstr _ => true
  | .sliceT e, .vslice e' _ => ftBEq e e'
  | .arrayT n e, .varray n' e' _ => n == n' && ftBEq e e'
  | .mapT k v, .vmap k' v' _ => ftBEq k k' && ftBEq v v'
  | .structT fs, .vstruct fs' _ => fsBEq fs fs'
  | .ptrT e, .vptr x => assignable e x
  | .customT f i, .vcustom f' i' => f == f' && i == i'
  | _, _ => false

/-- `assignValue`: modelled from the spec — on success the coerced
value is written into the record field; a `nil` value or a value whose
type does not match the field leaves the field unchanged, so "a failed
field keeps its previous (zero) value" and the record never contains
partially-converted garbage (spec §4.3). -/
def assignValue (t : FieldType) (old new : GoVal) : GoVal :=
  match new with
  | .vnil => old
  | new => if assignable t new then new else old

/-- Set `result[key] = value` on the dynamic map, modelled as an
association list in insertion order. -/
def mapSet : List (String × GoVal) → String → GoVal → List (String × GoVal)
  | [], k, v => [(k, v)]
  | (k', v') :: rest, k, v =>
      if k' = k then (k, v) :: rest else (k', v') :: mapSet rest k v

/-- Lookup in the dynamic map. -/
def mapLookup : List (String × GoVal) → String → Option GoVal
  | [], _ => none
  | (k', v') :: rest, k => if k' = k then some v' else mapLookup rest k

/-- `mapStructFields`-style lookup: find the field index, type and
coercer for a JSON key (the introspector maps each JSON field name to
its field position; modelled from the spec for the name-to-index part,
the coercers are built from `valueByReflectType` below). -/
def fieldByName : List (String × FieldType × CoFn) → String → Option (Nat × FieldType × CoFn)
  | [], _ => none
  | (n, t, cf) :: rest, k =>
      if n = k then some (0, t, cf)
      else (fieldByName rest k).map (fun r => (r.1 + 1, r.2.1, r.2.2))

/-- Outcome of the `populateStruct` key loop: ran to completion,
aborted with `return nil, false` (fail-on-first-error), aborted with
`return data, false` (fail-over with no dynamic map requested), or
panicked inside a coercion. -/
inductive PopOut where
  | done
  | failFirst
  | failRaw
  | crashed
deriving DecidableEq, Repr

/-- State threaded through `populateStruct`: the struct instance's
field values (by field index), the dynamic map (`none` when not
requested) and the errors recorded so far. -/
structure PopSt where
  inst : List GoVal
  res : Option (List (String × GoVal))
  errs : List Err

/-- Write a coerced value into field `idx` (via `assignValue`). -/
def setInst (inst : List GoVal) (idx : Nat) (t : FieldType) (v : GoVal) : List GoVal :=
  match inst[idx]? with
  | some old => inst.set idx (assignValue t old v)
  | none => inst

/-- Mirror a value into the dynamic map when one is requested. -/
def setRes (st : PopSt) (k : String) (v : GoVal) : PopSt :=
  { st with res := st.res.map (fun r => mapSet r k v) }

/-- Result of processing one key of the `populateStruct` loop: either
continue to the next key with an updated state, or leave the loop with
the given outcome. -/
inductive StepRes where
  | cont (st' : PopSt)
  | halt (st' : PopSt) (out : PopOut)

/-- The body of the `populateStruct` key loop for one input key:
either coerce into the matching field (mirroring into the dynamic map
and applying the mode's error policy) or copy the raw value verbatim
into the dynamic map. -/
def popStep (opts : UOptions) (cos : List (String × FieldType × CoFn))
    (path : List String) (st : PopSt) (key : String) (inputValue : GoVal) : StepRes :=
  match fieldByName cos key with
  | some (idx, ft, cf) =>
      let r := cf (path ++ [key]) inputValue false
      let st1 : PopSt := { st with errs := st.errs ++ r.errs }
      if r.crashed then .halt st1 .crashed
      else if r.ok then
        let st2 := if !opts.skipPopulateStruct || st1.res.isNone
                   then { st1 with inst := setInst st1.inst idx ft r.val }
                   else st1
        .cont (setRes st2 key r.val)
      else
        match opts.mode with
        | .failOnFirstError => .halt st1 .failFirst
        | .failOverToOriginalValue =>
            match st1.res with
            | some _ => .cont (setRes st1 key r.val)
            | none => .halt st1 .failRaw
        | .allowMultipleErrors => .cont st1
  | none => .cont (setRes st key inputValue)

/-- The key loop of `populateStruct`: run `popStep` over every input
key, stopping early when a step halts (fail-on-first-error abort,
fail-over abort with no dynamic map, or panic). -/
def populateStruct (opts : UOptions) (cos : List (String × FieldType × CoFn))
    (path : List String) : List (String × GoVal) → PopSt → PopSt × PopOut
  | [], st => (st, .done)
  | (key, inputValue) :: rest, st =>
      match popStep opts cos path st key inputValue with
      | .cont st' => populateStruct opts cos path rest st'
      | .halt st' out => (st', out)

/-- Outcome of an element/entry loop inside `buildSlice`, `buildArray`
or `buildMap`: all elements built, stopped at an invalid element with
`return nil, true`, stopped with `return v, true` (fail-over mode), or
panicked. -/
inductive ElemsOut (α : Type) where
  | built (x : α) (errs : List Err)
  | stopNil (errs : List Err)
  | stopRaw (errs : List Err)
  | crashed (errs : List Err)

/-- Element loop of `buildSlice`. -/
def sliceElems (mode : Mode) (e : FieldType) (ce : CoFn) (path : List String) :
    List GoVal → ElemsOut (List GoVal)
  | [] => .built [] []
  | x :: xs =>
      let r := ce path x false
      if r.crashed then .crashed r.errs
      else if r.ok then
        match sliceElems mode e ce path xs with
        | .built es errs => .built (safeReflectValue e r.val :: es) (r.errs ++ errs)
        | .stopNil errs => .stopNil (r.errs ++ errs)
        | .stopRaw errs => .stopRaw (r.errs ++ errs)
        | .crashed errs => .crashed (r.errs ++ errs)
      else
        match mode with
        | .failOverToOriginalValue => .stopRaw r.errs
        | _ => .stopNil r.errs

/-- `buildSlice`. -/
def buildSlice (mode : Mode) (t e : FieldType) (ce : CoFn) (path : List String)
    (v : GoVal) : Res :=
  match v with
  | .vnil => ⟨.vnil, true, [], false⟩
  | .varr xs =>
      match sliceElems mode e ce path xs with
      | .built es errs => ⟨.vslice e es, true, errs, false⟩
      | .stopNil errs => ⟨.vnil, true, errs, false⟩
      | .stopRaw errs => ⟨.varr xs, true, errs, false⟩
      | .crashed errs => ⟨.vnil, false, errs, true⟩
  | v => ⟨v, false, [.unexpectedType t path], false⟩

/-- Element loop of `buildArray`.  `arrayValue.Index(i)` is called
without a bound check in the source; when the coerced element is
non-nil and `i` is outside the array, `reflect` panics — modelled by
the `crashed` outcome. -/
def arrayElems (mode : Mode) (n : Nat) (ce : CoFn) (path : List String) :
    Nat → List GoVal → List GoVal → ElemsOut (List GoVal)
  | _, [], cur => .built cur []
  | i, x :: xs, cur =>
      let r := ce path x false
      if r.crashed then .crashed r.errs
      else if r.ok then
        if r.val.isNil then
          match arrayElems mode n ce path (i + 1) xs cur with
          | .built es errs => .built es (r.errs ++ errs)
          | .stopNil errs => .stopNil (r.errs ++ errs)
          | .stopRaw errs => .stopRaw (r.errs ++ errs)
          | .crashed errs => .crashed (r.errs ++ errs)
        else if i < n then
          match arrayElems mode n ce path (i + 1) xs (cur.set i r.val) with
          | .built es errs => .built es (r.errs ++ errs)
          | .stopNil errs => .stopNil (r.errs ++ errs)
          | .stopRaw errs => .stopRaw (r.errs ++ errs)
          | .crashed errs => .crashed (r.errs ++ errs)
        else .crashed r.errs
      else
        match mode with
        | .failOverToOriginalValue => .stopRaw r.errs
        | _ => .stopNil r.errs

/-- `buildArray`. -/
def buildArray (mode : Mode) (t : FieldType) (n : Nat) (e : FieldType) (ce : CoFn)
    (path : List String) (v : GoVal) : Res :=
  match v with
  | .vnil => ⟨.vnil, true, [], false⟩
  | .varr xs =>
      match arrayElems mode n ce path 0 xs (List.replicate n (zeroVal e)) with
      | .built es errs => ⟨.varray n e es, true, errs, false⟩
      | .stopNil errs => ⟨.vnil, true, errs, false⟩
      | .stopRaw errs => ⟨.varr xs, true, errs, false⟩
      | .crashed errs => ⟨.vnil, false, errs, true⟩
  | v => ⟨v, false, [.unexpectedType t path], false⟩

/-- Entry loop of `buildMap`: each entry's key and value are coerced
independently, aborting at the first invalid one per the mode. -/
def mapEntries (mode : Mode) (kt vt : FieldType) (ck cv : CoFn) (path : List String) :
    List (String × GoVal) → ElemsOut (List (GoVal × GoVal))
  | [] => .built [] []
  | (k, v) :: rest =>
      let rk := ck (path ++ [k]) (.vstr k) false
      if rk.crashed then .crashed rk.errs
      else if !rk.ok then
        match mode with
        | .failOverToOriginalValue => .stopRaw rk.errs
        | _ => .stopNil rk.errs
      else
        let rv := cv (path ++ [k]) v false
        if rv.crashed then .crashed (rk.errs ++ rv.errs)
        else if !rv.ok then
          match mode with
          | .failOverToOriginalValue => .stopRaw (rk.errs ++ rv.errs)
          | _ => .stopNil (rk.errs ++ rv.errs)
        else
          match mapEntries mode kt vt ck cv path rest with
          | .built es errs =>
              .built ((safeReflectValue kt rk.val, safeReflectValue vt rv.val) :: es)
                (rk.errs ++ rv.errs ++ errs)
          | .stopNil errs => .stopNil (rk.errs ++ rv.errs ++ errs)
          | .stopRaw errs => .stopRaw (rk.errs ++ rv.errs ++ errs)
          | .crashed errs => .crashed (rk.errs ++ rv.errs ++ errs)

/-- `buildMap`. -/
def buildMap (mode : Mode) (t kt vt : FieldType) (ck cv : CoFn) (path : List String)
    (v : GoVal) : Res :=
  match v with
  | .vnil => ⟨.vnil, true, [], false⟩
  | .vobj mp =>
      match mapEntries mode kt vt ck cv path mp with
      | .built es errs => ⟨.vmap kt vt es, true, errs, false⟩
      | .stopNil errs => ⟨.vnil, true, errs, false⟩
      | .stopRaw errs => ⟨.vobj mp, true, errs, false⟩
      | .crashed errs => ⟨.vnil, false, errs, true⟩
  | v => ⟨v, false, [.unexpectedType t path], false⟩

/-- `buildStruct`: a `nil` input is a successful `nil`; a non-object
input is an unexpected-type failure; otherwise a new instance is
allocated and `populateStruct` runs against it with no dynamic map.
The success value is the *pointer* to the new instance (`reflect.New`),
as in the source; `valueByReflectType`'s struct case dereferences it. -/
def buildStruct (opts : UOptions) (fs : FieldSchema)
    (cos : List (String × FieldType × CoFn)) (path : List String) (v : GoVal) : Res :=
  match v with
  | .vnil => ⟨.vnil, true, [], false⟩
  | .vobj mp =>
      let p := populateStruct opts cos path mp ⟨zeroVals fs, none, []⟩
      match p.2 with
      | .crashed => ⟨.vnil, false, p.1.errs, true⟩
      | .failFirst => ⟨.vnil, false, p.1.errs, false⟩
      | .failRaw => ⟨.vobj mp, false, p.1.errs, false⟩
      | .done => ⟨.vptr (.vstruct fs p.1.inst), true, p.1.errs, false⟩
  | v => ⟨v, false, [.unexpectedType (.structT fs) path], false⟩

/-- Primitive-kind branch of `valueByReflectType`: modelled from the
spec — a `nil` input yields `nil` for optional/interface destinations
and the zero value otherwise; a non-nil input goes through the kind's
converter (`primitiveConverters`), which accepts exactly the JSON
shape of the kind (numbers for numeric kinds, with float-to-int
truncation; anything for `interface{}`) and fails otherwise. -/
def primitiveValue (t : FieldType) (isIface : Bool) (zero : GoVal)
    (conv : GoVal → Option GoVal) (path : List String) (v : GoVal) (isPtr : Bool) : Res :=
  if v.isNil then
    if isPtr || isIface then ⟨v, true, [], false⟩ else ⟨zero, true, [], false⟩
  else
    match conv v with
    | some c => ⟨c, true, [], false⟩
    | none => ⟨v, false, [.unexpectedType t path], false⟩

/-- The tail of `valueByReflectType`'s struct case: a `nil` result is
returned as-is with its validity, an invalid result is returned with
`false`, and a valid non-nil result (the pointer to the new instance)
is dereferenced (`reflect.ValueOf(value).Elem().Interface()`). -/
def structDeref (r : Res) : Res :=
  if r.crashed then r
  else
    match r.val, r.ok with
    | .vnil, _ => r
    | .vptr x, true => { r with val := x }
    | _, _ => r

/-- The tail of `valueByReflectType`'s pointer case: a `nil` pointee
is propagated as absence, an invalid pointee is propagated as-is, and
a valid non-nil pointee is wrapped in a newly allocated holder
(`reflect.New` + `Set`). -/
def ptrWrap (r : Res) : Res :=
  if r.crashed then r
  else
    match r.val, r.ok with
    | .vnil, _ => r
    | x, true => { r with val := .vptr x }
    | _, _ => r

/-- Converter for `bool` kinds. -/
def convBool : GoVal → Option GoVal
  | .vbool b => some (.vbool b)
  | _ => none

/-- Converter for integer kinds: accepts only JSON numbers
(`float64`), truncating toward zero. -/
def convInt : GoVal → Option GoVal
  | .vnum q => some (.vint (q.num / (q.den : ℤ)))
  | _ => none

/-- Converter for float kinds. -/
def convFloat : GoVal → Option GoVal
  | .vnum q => some (.vnum q)
  | _ => none

/-- Converter for `string`. -/
def convString : GoVal → Option GoVal
  | .vstr s => some (.vstr s)
  | _ => none

/-- Converter for `interface{}`: accepts anything unchanged. -/
def convIface : GoVal → Option GoVal
  | v => some v

mutual
/-- `valueByReflectType`: the type-directed coercion.  Custom
unmarshalers are dispatched first (`t` itself implementing the
interface is the `ptrT (customT ..)` case, `PtrTo(t)` implementing it
is the `customT ..` case); then primitive converters; then the kind
switch for slices, arrays, maps, structs and pointers; any other kind
records an unsupported-type error. -/
def valueByReflectType (opts : UOptions) : FieldType → CoFn
  | .boolT => primitiveValue .boolT false (.vbool false) convBool
  | .intT => primitiveValue .intT false (.vint 0) convInt
  | .floatT => primitiveValue .floatT false (.vnum 0) convFloat
  | .stringT => primitiveValue .stringT false (.vstr "") convString
  | .ifaceT => primitiveValue .ifaceT true .vnil convIface
  | .sliceT e => fun path v _ =>
      buildSlice opts.mode (.sliceT e) e (valueByReflectType opts e) path v
  | .arrayT n e => fun path v _ =>
      buildArray opts.mode (.arrayT n e) n e (valueByReflectType opts e) path v
  | .mapT kt vt => fun path v _ =>
      buildMap opts.mode (.mapT kt vt) kt vt
        (valueByReflectType opts kt) (valueByReflectType opts vt) path v
  | .structT fs => fun path v _ =>
      structDeref (buildStruct opts fs (structFieldCoercers opts fs) path v)
  | .ptrT (.customT fails errId) => fun _ v _ =>
      -- `t.Implements(unmarshalerFromJSONMapType)`: a new pointee is
      -- allocated and the custom unmarshaler runs on the raw value;
      -- the pointer instance is returned with `true` regardless.
      let _ := v
      ⟨.vptr (.vcustom fails errId), true, if fails then [.custom errId] else [], false⟩
  | .ptrT (.structT fs) => fun path v _ =>
      buildStruct opts fs (structFieldCoercers opts fs) path v
  | .ptrT e => fun path v _ =>
      ptrWrap (valueByReflectType opts e path v true)
  | .customT fails errId => fun _ v _ =>
      -- `reflect.PtrTo(t).Implements(..)`: a new instance is allocated,
      -- the custom unmarshaler runs on the raw value, and the
      -- dereferenced instance is returned with `true` regardless.
      let _ := v
      ⟨.vcustom fails errId, true, if fails then [.custom errId] else [], false⟩
  | .unsupportedT => fun path _ _ =>
      ⟨.vnil, false, [.unsupportedType .unsupportedT path], false⟩

/-- The coercer list for a struct schema: JSON field name, field type
and the field's coercion function (the introspector's name-to-index
mapping together with `valueByReflectType` on the field's type). -/
def structFieldCoercers (opts : UOptions) : FieldSchema → List (String × FieldType × CoFn)
  | .nil => []
  | .cons name t rest =>
      (name, t, valueByReflectType opts t) :: structFieldCoercers opts rest
end

/-- The destination argument `v`: either invalid (nil, non-pointer,
pointer to non-struct, nil pointer — `isValidValue` is modelled from
the spec: the destination must be a non-null pointer to a record
type), or a valid pointer to a struct with the given schema and
current field values. -/
inductive Target where
  | invalid
  | structPtr (fs : FieldSchema) (init : List GoVal)

/-- The full outcome of `UnmarshalFromJSONMap`: returned map, returned
error, the final field values of the destination struct, and whether
the call panicked. -/
structure UResult where
  map : Option (List (String × GoVal))
  err : Option ErrOut
  struct : List GoVal
  crashed : Bool

/-- `UnmarshalFromJSONMap`: validates the destination, runs
`populateStruct` when the input map is non-nil, and assembles the
result per mode: aggregate modes return the map plus a `MultipleError`
when any error was recorded; fail-on-first-error mode returns a nil
map and the decoder's single error (`d.err`, i.e. the most recently
recorded error) when one was set. -/
def UnmarshalFromJSONMap (opts : UOptions) (target : Target)
    (data : Option (List (String × GoVal))) : UResult :=
  match target with
  | .invalid => ⟨none, some .invalidValue, [], false⟩
  | .structPtr fs init =>
      let cos := structFieldCoercers opts fs
      let (st, out) : PopSt × PopOut :=
        match data with
        | none => (⟨init, some [], []⟩, PopOut.done)
        | some entries => populateStruct opts cos [] entries ⟨init, some [], []⟩
      if out = .crashed then ⟨none, none, st.inst, true⟩
      else
        match opts.mode with
        | .allowMultipleErrors | .failOverToOriginalValue =>
            match st.errs with
            | [] => ⟨st.res, none, st.inst, false⟩
            | es => ⟨st.res, some (.multiple es), st.inst, false⟩
        | .failOnFirstError =>
            match st.errs.getLast? with
            | some e => ⟨none, some (.single e), st.inst, false⟩
            | none => ⟨st.res, none, st.inst, false⟩

/-! ### Derived notions used to state the verified properties -/

/-- The JSON field names of a schema. -/
def schemaNames : FieldSchema → List String
  | .nil => []
  | .cons n _ rest => n :: schemaNames rest

/-- The coercion result of one input entry against the schema (`none`
for unknown keys, which are not coerced at all). -/
def entryRes (cos : List (String × FieldType × CoFn)) (path : List String)
    (kv : String × GoVal) : Option Res :=
  (fieldByName cos kv.1).map (fun r => r.2.2 (path ++ [kv.1]) kv.2 false)

/-- Did coercing this entry panic? -/
def entryCrashed (cos : List (String × FieldType × CoFn)) (path : List String)
    (kv : String × GoVal) : Bool :=
  match entryRes cos path kv with
  | some r => r.crashed
  | none => false

/-- Is this entry a known field whose value's shape mismatches the
declared field type (i.e. its coercion reports invalid)? -/
def fieldFails (cos : List (String × FieldType × CoFn)) (path : List String)
    (kv : String × GoVal) : Bool :=
  match entryRes cos path kv with
  | some r => !r.ok
  | none => false

/-- Does this entry coerce without recording any error when it reports
valid?  (Holds automatically for unknown keys and for plain shape
mismatches; rules out element-level, nested and custom-decoder errors
inside fields that still report valid.) -/
def entryCleanOk (cos : List (String × FieldType × CoFn)) (path : List String)
    (kv : String × GoVal) : Bool :=
  match entryRes cos path kv with
  | some r => !r.ok || r.errs.isEmpty
  | none => true

/-- The errors recorded while processing one entry of the key loop. -/
def entryErrs (cos : List (String × FieldType × CoFn)) (path : List String)
    (kv : String × GoVal) : List Err :=
  match entryRes cos path kv with
  | some r => r.errs
  | none => []

/-- All errors recorded by the key loop over a list of entries, in
processing order. -/
def entriesErrs (cos : List (String × FieldType × CoFn)) (path : List String) :
    List (String × GoVal) → List Err
  | [] => []
  | kv :: rest => entryErrs cos path kv ++ entriesErrs cos path rest

/-- The dynamic-map outcome of a single entry in a loop that ran to
completion: unknown keys keep their raw value; known valid keys get
the coerced value; known invalid keys get the coercion's value in
fail-over mode and are omitted (`none`) otherwise. -/
def keyOutcome (mode : Mode) (cos : List (String × FieldType × CoFn))
    (path : List String) (k : String) (v : GoVal) : Option GoVal :=
  match fieldByName cos k with
  | none => some v
  | some (_, _, cf) =>
      let r := cf (path ++ [k]) v false
      if r.ok then some r.val
      else
        match mode with
        | .failOverToOriginalValue => some r.val
        | _ => none

/-- Pointee types for which a `null` input produces an absent (`nil`)
value with no recorded error: everything except unsupported
destinations and custom-decoder types (possibly behind pointers). -/
def nullBenign : FieldType → Bool
  | .unsupportedT => false
  | .customT _ _ => false
  | .ptrT e => nullBenign e
  | _ => true

/-- The non-optional primitive kinds. -/
def isPrimNonOpt : FieldType → Bool
  | .boolT | .intT | .floatT | .stringT => true
  | _ => false

/-- `struct { Foo string `json:"foo"`; Boo []int `json:"boo"` }` — the
schema of the spec's running example. -/
def c1Schema : FieldSchema := .cons "foo" .stringT (.cons "boo" (.sliceT .intT) .nil)

/-- Input `{"foo":"bar","extra":5}` for the same schema. -/
def c1Entries : List (String × GoVal) := [("foo", .vstr "bar"), ("extra", .vnum 5)]

/-- The spec example schema again, for the allow-multiple-errors witness. -/
def c2Schema : FieldSchema := .cons "foo" .stringT (.cons "boo" (.sliceT .intT) .nil)

/-- Input `{"foo":2,"boo":[1]}`: `foo` is shape-mismatched. -/
def c2Entries : List (String × GoVal) := [("foo", .vnum 2), ("boo", .varr [.vnum 1])]

/-- A struct with a single string field, for the fail-over witness. -/
def c3WSchema : FieldSchema := .cons "a" .stringT .nil

/-- `struct { A []int `json:"a"`; B bool `json:"b"` }`. -/
def c4Schema : FieldSchema := .cons "a" (.sliceT .intT) (.cons "b" .boolT .nil)

/-- `struct { X string `json:"x"`; Y bool `json:"y"` }`. -/
def c4WSchema : FieldSchema := .cons "x" .stringT (.cons "y" .boolT .nil)

/-- A struct whose single field is a pointer to an unsupported kind
(e.g. `struct { A *chan int `json:"a"` }`). -/
def c5Schema : FieldSchema := .cons "a" (.ptrT .unsupportedT) .nil

/-- `struct { A [1]bool `json:"a"` }`: a fixed-size array of capacity 1. -/
def c6Schema : FieldSchema := .cons "a" (.arrayT 1 .boolT) .nil

/-- The value under key `k` of the dynamic map produced by a key loop
that ran to completion over `entries`, starting from map `r0`: keys
not in the input keep their initial value, keys in the input get their
per-key outcome (falling back to the initial value when the outcome is
an omission). -/
def lookupOutcome (mode : Mode) (cos : List (String × FieldType × CoFn))
    (path : List String) (entries : List (String × GoVal))
    (r0 : List (String × GoVal)) (k : String) : Option GoVal :=
  match mapLookup entries k with
  | some v =>
      match keyOutcome mode cos path k v with
      | some w => some w
      | none => mapLookup r0 k
  | none => mapLookup r0 k

/-- Does processing this entry let the key loop continue (no panic
and, for known fields, a valid coercion)? -/
def entryPasses (cos : List (String × FieldType × CoFn)) (path : List String)
    (kv : String × GoVal) : Bool :=
  match entryRes cos path kv with
  | some r => r.ok && !r.crashed
  | none => true

/-! ### Association-list and field-lookup lemmas -/

theorem mapLookup_mapSet_self (r : List (String × GoVal)) (k : String) (v : GoVal) :
    mapLookup (mapSet r k v) k = some v := by
  induction r with
  | nil => simp [mapSet, mapLookup]
  | cons kv rest ih =>
      obtain ⟨k', v'⟩ := kv
      by_cases h : k' = k
      · simp [mapSet, h, mapLookup]
      · simp [mapSet, h, mapLookup, ih]

theorem mapLookup_mapSet_ne (r : List (String × GoVal)) (k' k : String) (v : GoVal)
    (h : k' ≠ k) : mapLookup (mapSet r k' v) k = mapLookup r k := by
  induction r with
  | nil => simp [mapSet, mapLookup, h]
  | cons kv rest ih =>
      obtain ⟨k1, v1⟩ := kv
      simp only [mapSet]
      by_cases h1 : k1 = k'
      · subst h1
        simp only [if_pos rfl, mapLookup, if_neg h]
      · simp only [if_neg h1, mapLookup]
        by_cases h2 : k1 = k
        · simp [h2]
        · simp [h2, ih]

theorem mapLookup_of_mem_nodup (l : List (String × GoVal)) (k : String) (v : GoVal) :
    (l.map Prod.fst).Nodup → (k, v) ∈ l → mapLookup l k = some v := by
  induction l with
  | nil => intro _ hmem; cases hmem
  | cons kv rest ih =>
      intro hnod hmem
      obtain ⟨k1, v1⟩ := kv
      rw [List.map_cons, List.nodup_cons] at hnod
      have hnd := hnod
      rcases List.mem_cons.mp hmem with h | h
      · injection h with h1 h2
        subst h1; subst h2
        simp [mapLookup]
      · have hk1 : k1 ≠ k := by
          rintro rfl
          exact hnd.1 (List.mem_map.mpr ⟨(k1, v), h, rfl⟩)
        simp only [mapLookup, if_neg hk1]
        exact ih hnd.2 h

theorem mapLookup_none_of_not_mem (l : List (String × GoVal)) (k : String) :
    k ∉ l.map Prod.fst → mapLookup l k = none := by
  induction l with
  | nil => intro _; rfl
  | cons kv rest ih =>
      intro h
      simp only [List.map_cons, List.mem_cons] at h
      push_neg at h
      simpa [mapLookup, Ne.symm h.1] using ih h.2

theorem fieldByName_get (cos : List (String × FieldType × CoFn)) (k : String) :
    ∀ idx ft cf, fieldByName cos k = some (idx, ft, cf) → cos[idx]? = some (k, ft, cf) := by
  induction cos with
  | nil => intro idx ft cf h; cases h
  | cons c rest ih =>
      intro idx ft cf h
      obtain ⟨n, t, f⟩ := c
      by_cases hn : n = k
      · simp only [fieldByName] at h
        rw [if_pos hn] at h
        injection h with h'
        injection h' with h1 h2
        injection h2 with h2 h3
        subst h1; subst h2; subst h3; subst hn
        simp
      · simp only [fieldByName] at h
        rw [if_neg hn] at h
        match hrec : fieldByName rest k with
        | none => rw [hrec] at h; cases h
        | some r =>
            obtain ⟨j, ft', cf'⟩ := r
            rw [hrec] at h
            simp only [Option.map_some', Option.some.injEq] at h
            injection h with h1 h2
            injection h2 with h2 h3
            subst h1; subst h2; subst h3
            simpa using ih j ft' cf' hrec

theorem fieldByName_none_iff (opts : UOptions) :
    ∀ (fs : FieldSchema) (k : String),
      fieldByName (structFieldCoercers opts fs) k = none ↔ k ∉ schemaNames fs
  | .nil, k => by simp [structFieldCoercers, fieldByName, schemaNames]
  | .cons n t rest, k => by
      by_cases hn : n = k
      · simp [structFieldCoercers, fieldByName, schemaNames, hn]
      · have ih := fieldByName_none_iff opts rest k
        simp only [structFieldCoercers, fieldByName, if_neg hn, Option.map_eq_none',
          schemaNames, List.mem_cons, ih]
        constructor
        · intro h hk
          rcases hk with hk | hk
          · exact hn hk.symm
          · exact h hk
        · intro h hk
          exact h (Or.inr hk)

theorem structFieldCoercers_get (opts : UOptions) :
    ∀ (fs : FieldSchema) (idx : Nat) (n : String) (t : FieldType) (cf : CoFn),
      (structFieldCoercers opts fs)[idx]? = some (n, t, cf) →
      cf = valueByReflectType opts t ∧ (zeroVals fs)[idx]? = some (zeroVal t)
  | .nil, idx, n, t, cf => by intro h; simp [structFieldCoercers] at h
  | .cons n1 t1 rest, 0, n, t, cf => by
      intro h
      simp only [structFieldCoercers, List.getElem?_cons_zero, Option.some.injEq] at h
      injection h with h1 h2
      injection h2 with h2 h3
      subst h2; subst h3
      exact ⟨rfl, by simp [zeroVals]⟩
  | .cons n1 t1 rest, idx + 1, n, t, cf => by
      intro h
      simp only [structFieldCoercers, List.getElem?_cons_succ] at h
      have := structFieldCoercers_get opts rest idx n t cf h
      simpa [zeroVals] using this

/-! ### Lemmas about one step of the `populateStruct` key loop -/

section StepLemmas

variable {opts : UOptions} {cos : List (String × FieldType × CoFn)} {path : List String}
variable {st st' : PopSt} {key : String} {v : GoVal} {out : PopOut}

theorem popStep_cont_res {r0 : List (String × GoVal)}
    (h : popStep opts cos path st key v = .cont st') (hres : st.res = some r0) :
    st'.res = some (match keyOutcome opts.mode cos path key v with
                    | some w => mapSet r0 key w
                    | none => r0) := by
  simp only [popStep] at h
  rcases hf : fieldByName cos key with _ | ⟨idx, ft, cf⟩
  · rw [hf] at h
    cases h
    simp [keyOutcome, hf, setRes, hres]
  · rw [hf] at h
    by_cases hcr : (cf (path ++ [key]) v false).crashed = true
    · simp [hcr] at h
    · simp only [hcr, if_false, Bool.not_eq_true] at h ⊢
      by_cases hok : (cf (path ++ [key]) v false).ok = true
      · simp only [hok, if_true] at h
        cases h
        simp only [keyOutcome, hf, hok, if_true, setRes]
        rw [apply_ite PopSt.res]
        simp [hres]
      · simp only [hok, if_false, Bool.not_eq_true] at h
        rcases hmode : opts.mode with _ | _ | _
        · rw [hmode] at h; cases h
        · rw [hmode] at h
          cases h
          simp [keyOutcome, hf, hok, hmode, hres, Bool.not_eq_true]
        · rw [hmode] at h
          rw [hres] at h
          simp only at h
          cases h
          simp [keyOutcome, hf, hok, hmode, setRes, hres, Bool.not_eq_true]

theorem popStep_halt_st (h : popStep opts cos path st key v = .halt st' out) :
    st'.res = st.res ∧ st'.inst = st.inst ∧
      st'.errs = st.errs ++ entryErrs cos path (key, v) := by
  simp only [popStep] at h
  rcases hf : fieldByName cos key with _ | ⟨idx, ft, cf⟩
  · rw [hf] at h; cases h
  · rw [hf] at h
    by_cases hcr : (cf (path ++ [key]) v false).crashed = true
    · simp only [hcr, if_true] at h
      cases h
      simp [entryErrs, entryRes, hf]
    · simp only [hcr, if_false, Bool.not_eq_true] at h
      by_cases hok : (cf (path ++ [key]) v false).ok = true
      · simp [hok] at h
      · simp only [hok, if_false, Bool.not_eq_true] at h
        rcases hmode : opts.mode with _ | _ | _
        · rw [hmode] at h
          cases h
          simp [entryErrs, entryRes, hf]
        · rw [hmode] at h; cases h
        · rw [hmode] at h
          rcases hres : st.res with _ | r0
          · rw [hres] at h
            simp only at h
            cases h
            simp [entryErrs, entryRes, hf]
          · rw [hres] at h
            simp only at h
            cases h

theorem popStep_cont_errs (h : popStep opts cos path st key v = .cont st') :
    st'.errs = st.errs ++ entryErrs cos path (key, v) := by
  simp only [popStep] at h
  rcases hf : fieldByName cos key with _ | ⟨idx, ft, cf⟩
  · rw [hf] at h
    cases h
    simp [setRes, entryErrs, entryRes, hf]
  · rw [hf] at h
    by_cases hcr : (cf (path ++ [key]) v false).crashed = true
    · simp [hcr] at h
    · simp only [hcr, if_false, Bool.not_eq_true] at h
      by_cases hok : (cf (path ++ [key]) v false).ok = true
      · simp only [hok, if_true] at h
        cases h
        by_cases hsp : (!opts.skipPopulateStruct || st.res.isNone) = true
        · simp [hsp, setRes, entryErrs, entryRes, hf]
        · simp [hsp, setRes, entryErrs, entryRes, hf]
      · simp only [hok, if_false, Bool.not_eq_true] at h
        rcases hmode : opts.mode with _ | _ | _
        · rw [hmode] at h; cases h
        · rw [hmode] at h
          cases h
          simp [entryErrs, entryRes, hf]
        · rw [hmode] at h
          rcases hres : st.res with _ | r0
          · rw [hres] at h; simp only at h; cases h
          · rw [hres] at h
            simp only at h
            cases h
            simp [setRes, entryErrs, entryRes, hf]

theorem popStep_halt_cases (h : popStep opts cos path st key v = .halt st' out) :
    (out = .crashed ∧ entryCrashed cos path (key, v) = true) ∨
    (out = .failFirst ∧ opts.mode = .failOnFirstError ∧ fieldFails cos path (key, v) = true ∧
      entryCrashed cos path (key, v) = false) ∨
    (out = .failRaw ∧ opts.mode = .failOverToOriginalValue ∧ st.res = none ∧
      fieldFails cos path (key, v) = true ∧ entryCrashed cos path (key, v) = false) := by
  simp only [popStep] at h
  rcases hf : fieldByName cos key with _ | ⟨idx, ft, cf⟩
  · rw [hf] at h; cases h
  · rw [hf] at h
    by_cases hcr : (cf (path ++ [key]) v false).crashed = true
    · simp only [hcr, if_true] at h
      cases h
      exact Or.inl ⟨rfl, by simp [entryCrashed, entryRes, hf, hcr]⟩
    · have hcr' : (cf (path ++ [key]) v false).crashed = false := by
        cases hb : (cf (path ++ [key]) v false).crashed
        · rfl
        · exact absurd hb hcr
      simp only [hcr, if_false, Bool.not_eq_true] at h
      by_cases hok : (cf (path ++ [key]) v false).ok = true
      · simp [hok] at h
      · simp only [hok, if_false, Bool.not_eq_true] at h
        rcases hmode : opts.mode with _ | _ | _
        · rw [hmode] at h
          cases h
          exact Or.inr (Or.inl ⟨rfl, rfl,
            by simp [fieldFails, entryRes, hf, hok, Bool.not_eq_true],
            by simp [entryCrashed, entryRes, hf, hcr']⟩)
        · rw [hmode] at h; cases h
        · rw [hmode] at h
          rcases hres : st.res with _ | r0
          · rw [hres] at h
            simp only at h
            cases h
            exact Or.inr (Or.inr ⟨rfl, rfl, rfl,
              by simp [fieldFails, entryRes, hf, hok, Bool.not_eq_true],
              by simp [entryCrashed, entryRes, hf, hcr']⟩)
          · rw [hres] at h
            simp only at h
            cases h

theorem popStep_cont_of (hcr : entryCrashed cos path (key, v) = false)
    (hmode : opts.mode ≠ .failOnFirstError) (hres : st.res.isSome) :
    ∃ st', popStep opts cos path st key v = .cont st' := by
  rcases hstep : popStep opts cos path st key v with st'' | ⟨st'', out1⟩
  · exact ⟨st'', rfl⟩
  · rcases popStep_halt_cases hstep with ⟨_, hc⟩ | ⟨_, hm, _⟩ | ⟨_, _, hn, _⟩
    · rw [hcr] at hc; cases hc
    · exact absurd hm hmode
    · rw [hn] at hres; cases hres

theorem popStep_cont_of_passes (hp : entryPasses cos path (key, v) = true)
    (hres : st.res.isSome) :
    ∃ st', popStep opts cos path st key v = .cont st' := by
  rcases hstep : popStep opts cos path st key v with st'' | ⟨st'', out1⟩
  · exact ⟨st'', rfl⟩
  · have hff : fieldFails cos path (key, v) = false := by
      simp only [entryPasses, fieldFails] at hp ⊢
      rcases hr : entryRes cos path (key, v) with _ | r
      · rfl
      · rw [hr] at hp
        simp only at hp ⊢
        simp [Bool.and_eq_true] at hp
        simp [hp.1]
    have hcc : entryCrashed cos path (key, v) = false := by
      simp only [entryPasses, entryCrashed] at hp ⊢
      rcases hr : entryRes cos path (key, v) with _ | r
      · rfl
      · rw [hr] at hp
        simp only at hp ⊢
        simp [Bool.and_eq_true] at hp
        simp [hp.2]
    rcases popStep_halt_cases hstep with ⟨_, hc⟩ | ⟨_, _, hc, _⟩ | ⟨_, _, hn, _⟩
    · rw [hcc] at hc; cases hc
    · rw [hff] at hc; cases hc
    · rw [hn] at hres; cases hres

end StepLemmas

/-! ### Lemmas about the whole `populateStruct` key loop -/

section LoopLemmas

variable {opts : UOptions} {cos : List (String × FieldType × CoFn)} {path : List String}

theorem populate_done (hmode : opts.mode ≠ .failOnFirstError) :
    ∀ (entries : List (String × GoVal)) (st : PopSt), st.res.isSome →
      (∀ kv ∈ entries, entryCrashed cos path kv = false) →
      (populateStruct opts cos path entries st).2 = .done := by
  intro entries
  induction entries with
  | nil => intro st _ _; rfl
  | cons kv rest ih =>
      intro st hres hcr
      obtain ⟨key, v⟩ := kv
      obtain ⟨st', hstep⟩ :=
        popStep_cont_of (hcr _ (List.mem_cons_self _ _)) hmode hres
      simp only [populateStruct, hstep]
      obtain ⟨r0, hr0⟩ := Option.isSome_iff_exists.mp hres
      have hres' := popStep_cont_res hstep hr0
      exact ih st' (by simp [hres']) (fun kv hkv => hcr kv (List.mem_cons_of_mem _ hkv))

theorem populate_halt_out_ne_done
    {st st' : PopSt} {key : String} {v : GoVal} {out : PopOut}
    (h : popStep opts cos path st key v = .halt st' out) : out ≠ .done := by
  rcases popStep_halt_cases h with ⟨hc, _⟩ | ⟨hc, _⟩ | ⟨hc, _⟩ <;>
    (rw [hc]; intro hx; cases hx)

theorem populate_errs_done :
    ∀ (entries : List (String × GoVal)) (st st' : PopSt),
      populateStruct opts cos path entries st = (st', .done) →
      st'.errs = st.errs ++ entriesErrs cos path entries := by
  intro entries
  induction entries with
  | nil =>
      intro st st' h
      injection h with h1 _
      subst h1
      simp [entriesErrs]
  | cons kv rest ih =>
      intro st st' h
      obtain ⟨key, v⟩ := kv
      simp only [populateStruct] at h
      rcases hstep : popStep opts cos path st key v with st1 | ⟨st1, out1⟩
      · rw [hstep] at h
        rw [ih _ _ h, popStep_cont_errs hstep]
        simp [entriesErrs]
      · rw [hstep] at h
        injection h with _ h2
        exact absurd h2 (populate_halt_out_ne_done hstep)

theorem populate_lookup_done :
    ∀ (entries : List (String × GoVal)) (st st' : PopSt),
      (entries.map Prod.fst).Nodup →
      populateStruct opts cos path entries st = (st', .done) →
      ∀ r0, st.res = some r0 →
        ∃ r', st'.res = some r' ∧
          ∀ k, mapLookup r' k = lookupOutcome opts.mode cos path entries r0 k := by
  intro entries
  induction entries with
  | nil =>
      intro st st' _ h r0 hr0
      injection h with h1 _
      subst h1
      exact ⟨r0, hr0, fun k => by simp [lookupOutcome, mapLookup]⟩
  | cons kv rest ih =>
      intro st st' hnod h r0 hr0
      obtain ⟨key, v⟩ := kv
      rw [List.map_cons, List.nodup_cons] at hnod
      simp only [populateStruct] at h
      rcases hstep : popStep opts cos path st key v with st1 | ⟨st1, out1⟩
      · rw [hstep] at h
        have hres1 := popStep_cont_res hstep hr0
        obtain ⟨r', hr', hchar⟩ := ih _ _ hnod.2 h _ hres1
        refine ⟨r', hr', fun k => ?_⟩
        rw [hchar k]
        by_cases hk : key = k
        · subst hk
          have hrk : mapLookup rest key = none :=
            mapLookup_none_of_not_mem rest key hnod.1
          rcases hko : keyOutcome opts.mode cos path key v with _ | w
          · simp [lookupOutcome, hrk, mapLookup, hko]
          · simp [lookupOutcome, hrk, mapLookup, hko, mapLookup_mapSet_self]
        · have hck : mapLookup ((key, v) :: rest) k = mapLookup rest k := by
            simp [mapLookup, hk]
          rcases hko : keyOutcome opts.mode cos path key v with _ | w1
          · simp [lookupOutcome, hck]
          · rcases hlk : mapLookup rest k with _ | w
            · simp [lookupOutcome, hck, hlk, mapLookup_mapSet_ne r0 key k w1 hk]
            · rcases hko2 : keyOutcome opts.mode cos path k w with _ | w'
              · simp [lookupOutcome, hck, hlk, hko2,
                  mapLookup_mapSet_ne r0 key k w1 hk]
              · simp [lookupOutcome, hck, hlk, hko2]
      · rw [hstep] at h
        injection h with _ h2
        exact absurd h2 (populate_halt_out_ne_done hstep)

theorem populate_failFirst_abort (hmode : opts.mode = .failOnFirstError) :
    ∀ (pre : List (String × GoVal)) (st : PopSt) (k : String) (v : GoVal)
      (post : List (String × GoVal)),
      (∀ kv ∈ pre, entryPasses cos path kv = true) →
      st.res.isSome →
      fieldFails cos path (k, v) = true →
      entryCrashed cos path (k, v) = false →
      populateStruct opts cos path (pre ++ (k, v) :: post) st =
        populateStruct opts cos path (pre ++ [(k, v)]) st ∧
      (populateStruct opts cos path (pre ++ [(k, v)]) st).2 = .failFirst := by
  intro pre
  induction pre with
  | nil =>
      intro st k v post hpre hres hfail hcrash
      simp only [List.nil_append]
      rcases hstep : popStep opts cos path st k v with st1 | ⟨st1, out1⟩
      · -- a failing, non-crashing entry cannot continue in fail-on-first mode
        exfalso
        simp only [popStep] at hstep
        rcases hf : fieldByName cos k with _ | ⟨idx, ft, cf⟩
        · simp [fieldFails, entryRes, hf] at hfail
        · rw [hf] at hstep
          have hok : (cf (path ++ [k]) v false).ok = false := by
            simp only [fieldFails, entryRes, hf, Option.map_some'] at hfail
            simpa using hfail
          have hcr : (cf (path ++ [k]) v false).crashed = false := by
            simp only [entryCrashed, entryRes, hf, Option.map_some'] at hcrash
            simpa using hcrash
          simp [hcr, hok, hmode] at hstep
      · have hout : out1 = .failFirst := by
          rcases popStep_halt_cases hstep with ⟨hc, hc2⟩ | ⟨hc, _⟩ | ⟨_, _, hn, _⟩
          · rw [hcrash] at hc2; cases hc2
          · exact hc
          · rw [hn] at hres; cases hres
        subst hout
        simp [populateStruct, hstep]
  | cons kv rest ih =>
      intro st k v post hpre hres hfail hcrash
      obtain ⟨key, v1⟩ := kv
      have hcont : ∃ st1, popStep opts cos path st key v1 = .cont st1 :=
        popStep_cont_of_passes (hpre _ (List.mem_cons_self _ _)) hres
      obtain ⟨st1, hstep⟩ := hcont
      obtain ⟨r0, hr0⟩ := Option.isSome_iff_exists.mp hres
      have hres1 : st1.res.isSome := by rw [popStep_cont_res hstep hr0]; rfl
      have hgoal := ih st1 k v post (fun kv hkv => hpre kv (List.mem_cons_of_mem _ hkv))
        hres1 hfail hcrash
      constructor
      · show (match popStep opts cos path st key v1 with
              | StepRes.cont st' =>
                  populateStruct opts cos path (rest ++ (k, v) :: post) st'
              | StepRes.halt st' out => (st', out)) =
            (match popStep opts cos path st key v1 with
              | StepRes.cont st' =>
                  populateStruct opts cos path (rest ++ [(k, v)]) st'
              | StepRes.halt st' out => (st', out))
        rw [hstep]
        exact hgoal.1
      · show (match popStep opts cos path st key v1 with
              | StepRes.cont st' =>
                  populateStruct opts cos path (rest ++ [(k, v)]) st'
              | StepRes.halt st' out => (st', out)).2 = PopOut.failFirst
        rw [hstep]
        exact hgoal.2

theorem fieldByName_mem {cos : List (String × FieldType × CoFn)} {key : String}
    {idx : Nat} {ft : FieldType} {cf : CoFn}
    (h : fieldByName cos key = some (idx, ft, cf)) : (key, ft, cf) ∈ cos :=
  List.getElem?_mem (fieldByName_get cos key idx ft cf h)

theorem entryErrs_ne_of_fail {cos : List (String × FieldType × CoFn)} {path : List String}
    {key : String} {v : GoVal}
    (hco : ∀ n ft cf, (n, ft, cf) ∈ cos → ∀ p w ip,
      (cf p w ip).ok = false → (cf p w ip).crashed = false → (cf p w ip).errs ≠ [])
    (hfail : fieldFails cos path (key, v) = true)
    (hcrash : entryCrashed cos path (key, v) = false) :
    entryErrs cos path (key, v) ≠ [] := by
  simp only [fieldFails, entryCrashed, entryErrs, entryRes] at hfail hcrash ⊢
  rcases hf : fieldByName cos key with _ | ⟨idx, ft, cf⟩
  · rw [hf] at hfail
    simp at hfail
  · rw [hf] at hfail hcrash
    simp only [Option.map_some'] at hfail hcrash ⊢
    exact hco key ft cf (fieldByName_mem hf) _ _ _ (by simpa using hfail)
      (by simpa using hcrash)

theorem populate_abort_errs
    (hco : ∀ n ft cf, (n, ft, cf) ∈ cos → ∀ p w ip,
      (cf p w ip).ok = false → (cf p w ip).crashed = false → (cf p w ip).errs ≠ []) :
    ∀ (entries : List (String × GoVal)) (st st' : PopSt) (out : PopOut),
      populateStruct opts cos path entries st = (st', out) →
      (out = .failFirst ∨ out = .failRaw) → st'.errs ≠ [] := by
  intro entries
  induction entries with
  | nil =>
      intro st st' out h hout
      injection h with _ h2
      subst h2
      rcases hout with h | h <;> cases h
  | cons kv rest ih =>
      intro st st' out h hout
      obtain ⟨key, v⟩ := kv
      simp only [populateStruct] at h
      rcases hstep : popStep opts cos path st key v with st1 | ⟨st1, out1⟩
      · rw [hstep] at h
        exact ih st1 st' out h hout
      · rw [hstep] at h
        injection h with h1 h2
        subst h1; subst h2
        have hst := popStep_halt_st hstep
        rw [hst.2.2]
        rcases popStep_halt_cases hstep with ⟨hc, _⟩ | ⟨_, _, hff, hcc⟩ | ⟨_, _, _, hff, hcc⟩
        · subst hc
          rcases hout with h | h <;> cases h
        · have := entryErrs_ne_of_fail hco hff hcc
          simp [this]
        · have := entryErrs_ne_of_fail hco hff hcc
          simp [this]

theorem populate_multi_out (hmode : opts.mode = .allowMultipleErrors) :
    ∀ (entries : List (String × GoVal)) (st : PopSt),
      (populateStruct opts cos path entries st).2 = .done ∨
      (populateStruct opts cos path entries st).2 = .crashed := by
  intro entries
  induction entries with
  | nil => intro st; exact Or.inl rfl
  | cons kv rest ih =>
      intro st
      obtain ⟨key, v⟩ := kv
      simp only [populateStruct]
      rcases hstep : popStep opts cos path st key v with st1 | ⟨st1, out1⟩
      · exact ih st1
      · rcases popStep_halt_cases hstep with ⟨hc, _⟩ | ⟨_, hm, _⟩ | ⟨_, hm, _⟩
        · subst hc; exact Or.inr rfl
        · rw [hmode] at hm; cases hm
        · rw [hmode] at hm; cases hm

theorem populate_no_failFirst (hmode : opts.mode ≠ .failOnFirstError) :
    ∀ (entries : List (String × GoVal)) (st : PopSt),
      (populateStruct opts cos path entries st).2 ≠ .failFirst := by
  intro entries
  induction entries with
  | nil => intro st h; cases h
  | cons kv rest ih =>
      intro st
      obtain ⟨key, v⟩ := kv
      simp only [populateStruct]
      rcases hstep : popStep opts cos path st key v with st1 | ⟨st1, out1⟩
      · exact ih st1
      · rcases popStep_halt_cases hstep with ⟨hc, _⟩ | ⟨hc, hm, _⟩ | ⟨hc, _⟩
        · subst hc; intro h; cases h
        · exact absurd hm hmode
        · subst hc; intro h; cases h

end LoopLemmas

/-- The glue between `populateStruct`'s outcome and the result
assembled by `UnmarshalFromJSONMap`, for non-panicking runs. -/
theorem unmarshal_run_eq (opts : UOptions) (fs : FieldSchema) (init : List GoVal)
    (entries : List (String × GoVal)) (st' : PopSt) (out : PopOut)
    (hrun : populateStruct opts (structFieldCoercers opts fs) [] entries
      ⟨init, some [], []⟩ = (st', out))
    (hout : out ≠ .crashed) :
    UnmarshalFromJSONMap opts (.structPtr fs init) (some entries) =
      match opts.mode with
      | .allowMultipleErrors | .failOverToOriginalValue =>
          match st'.errs with
          | [] => ⟨st'.res, none, st'.inst, false⟩
          | es => ⟨st'.res, some (.multiple es), st'.inst, false⟩
      | .failOnFirstError =>
          match st'.errs.getLast? with
          | some e => ⟨none, some (.single e), st'.inst, false⟩
          | none => ⟨st'.res, none, st'.inst, false⟩ := by
  simp only [UnmarshalFromJSONMap, hrun]
  rw [if_neg hout]

/-- The glue for panicking runs: no result at all. -/
theorem unmarshal_run_crashed (opts : UOptions) (fs : FieldSchema) (init : List GoVal)
    (entries : List (String × GoVal)) (st' : PopSt)
    (hrun : populateStruct opts (structFieldCoercers opts fs) [] entries
      ⟨init, some [], []⟩ = (st', .crashed)) :
    UnmarshalFromJSONMap opts (.structPtr fs init) (some entries) =
      ⟨none, none, st'.inst, true⟩ := by
  simp [UnmarshalFromJSONMap, hrun]

/-! ### Failure analysis of the coercion building blocks -/

theorem ptrWrap_parts (r : Res) :
    (ptrWrap r).ok = r.ok ∧ (ptrWrap r).errs = r.errs ∧
    (ptrWrap r).crashed = r.crashed ∧ (r.ok = false → (ptrWrap r).val = r.val) := by
  obtain ⟨val, ok, errs, cr⟩ := r
  cases cr
  · cases ok
    · cases val <;> simp [ptrWrap]
    · cases val <;> simp [ptrWrap]
  · simp [ptrWrap]

theorem structDeref_parts (r : Res) :
    (structDeref r).ok = r.ok ∧ (structDeref r).errs = r.errs ∧
    (structDeref r).crashed = r.crashed ∧ (r.ok = false → (structDeref r).val = r.val) := by
  obtain ⟨val, ok, errs, cr⟩ := r
  cases cr
  · cases ok
    · cases val <;> simp [structDeref]
    · cases val <;> simp [structDeref]
  · simp [structDeref]

theorem primitiveValue_fail {t : FieldType} {ii : Bool} {z : GoVal}
    {conv : GoVal → Option GoVal} {p : List String} {v : GoVal} {ip : Bool}
    (hok : (primitiveValue t ii z conv p v ip).ok = false) :
    primitiveValue t ii z conv p v ip = ⟨v, false, [.unexpectedType t p], false⟩ := by
  unfold primitiveValue at hok ⊢
  by_cases hn : v.isNil = true
  · rw [if_pos hn] at hok
    by_cases hip : (ip || ii) = true
    · rw [if_pos hip] at hok; cases hok
    · rw [if_neg hip] at hok; cases hok
  · rw [if_neg hn] at hok ⊢
    rcases hc : conv v with _ | c
    · rfl
    · rw [hc] at hok
      simp at hok

theorem buildSlice_fail {mode : Mode} {t e : FieldType} {ce : CoFn}
    {p : List String} {v : GoVal}
    (hok : (buildSlice mode t e ce p v).ok = false)
    (hcr : (buildSlice mode t e ce p v).crashed = false) :
    buildSlice mode t e ce p v = ⟨v, false, [.unexpectedType t p], false⟩ := by
  cases v
  case vnil => simp [buildSlice] at hok
  case varr elems =>
      simp only [buildSlice] at hok hcr ⊢
      rcases h : sliceElems mode e ce p elems with ⟨es, errs⟩ | errs | errs | errs <;>
        rw [h] at hok hcr <;> simp at hok hcr
  all_goals rfl

theorem buildArray_fail {mode : Mode} {t : FieldType} {n : Nat} {e : FieldType}
    {ce : CoFn} {p : List String} {v : GoVal}
    (hok : (buildArray mode t n e ce p v).ok = false)
    (hcr : (buildArray mode t n e ce p v).crashed = false) :
    buildArray mode t n e ce p v = ⟨v, false, [.unexpectedType t p], false⟩ := by
  cases v
  case vnil => simp [buildArray] at hok
  case varr elems =>
      simp only [buildArray] at hok hcr ⊢
      rcases h : arrayElems mode n ce p 0 elems (List.replicate n (zeroVal e)) with
        ⟨es, errs⟩ | errs | errs | errs <;>
        rw [h] at hok hcr <;> simp at hok hcr
  all_goals rfl

theorem buildMap_fail {mode : Mode} {t kt vt : FieldType} {ck cv : CoFn}
    {p : List String} {v : GoVal}
    (hok : (buildMap mode t kt vt ck cv p v).ok = false)
    (hcr : (buildMap mode t kt vt ck cv p v).crashed = false) :
    buildMap mode t kt vt ck cv p v = ⟨v, false, [.unexpectedType t p], false⟩ := by
  cases v
  case vnil => simp [buildMap] at hok
  case vobj mp =>
      simp only [buildMap] at hok hcr ⊢
      rcases h : mapEntries mode kt vt ck cv p mp with ⟨es, errs⟩ | errs | errs | errs <;>
        rw [h] at hok hcr <;> simp at hok hcr
  all_goals rfl

theorem buildStruct_fail {opts : UOptions} {fs : FieldSchema}
    {cos : List (String × FieldType × CoFn)} {p : List String} {v : GoVal}
    (hok : (buildStruct opts fs cos p v).ok = false)
    (hcr : (buildStruct opts fs cos p v).crashed = false) :
    (∃ mp st' out, v = .vobj mp ∧
        populateStruct opts cos p mp ⟨zeroVals fs, none, []⟩ = (st', out) ∧
        (out = .failFirst ∨ out = .failRaw) ∧
        buildStruct opts fs cos p v =
          ⟨if out = .failFirst then .vnil else .vobj mp, false, st'.errs, false⟩) ∨
      buildStruct opts fs cos p v = ⟨v, false, [.unexpectedType (.structT fs) p], false⟩ := by
  cases v
  case vnil => simp [buildStruct] at hok
  case vobj mp =>
      left
      simp only [buildStruct] at hok hcr ⊢
      rcases hPP : populateStruct opts cos p mp ⟨zeroVals fs, none, []⟩ with ⟨st', out⟩
      rw [hPP] at hok hcr
      cases out
      case done => simp at hok
      case failFirst =>
          refine ⟨mp, st', .failFirst, rfl, hPP, Or.inl rfl, ?_⟩
          simp
      case failRaw =>
          refine ⟨mp, st', .failRaw, rfl, hPP, Or.inr rfl, ?_⟩
          simp
      case crashed => simp at hcr
  all_goals right; rfl

/-- Uniform description of `valueByReflectType` on pointer types: the
pointer coercion has the same validity, errors and panic behaviour as
the pointee coercion in optional context, and when the pointee
coercion fails the pointer coercion returns the same value. -/
theorem ptrT_parts (opts : UOptions) (e : FieldType) (p : List String) (v : GoVal)
    (ip : Bool) :
    (valueByReflectType opts (.ptrT e) p v ip).ok =
      (valueByReflectType opts e p v true).ok ∧
    (valueByReflectType opts (.ptrT e) p v ip).errs =
      (valueByReflectType opts e p v true).errs ∧
    (valueByReflectType opts (.ptrT e) p v ip).crashed =
      (valueByReflectType opts e p v true).crashed ∧
    ((valueByReflectType opts e p v true).ok = false →
      (valueByReflectType opts (.ptrT e) p v ip).val =
        (valueByReflectType opts e p v true).val) := by
  cases e
  case customT f i => simp [valueByReflectType]
  case structT fs =>
      have h := structDeref_parts (buildStruct opts fs (structFieldCoercers opts fs) p v)
      exact ⟨h.1.symm, h.2.1.symm, h.2.2.1.symm,
        fun hf => (h.2.2.2 (h.1.symm.trans hf)).symm⟩
  all_goals
    exact (fun h => ⟨h.1, h.2.1, h.2.2.1, fun hf => (h.2.2.2 hf)⟩)
      (ptrWrap_parts (valueByReflectType opts _ p v true))

mutual

/-- An invalid non-panicking coercion always records at least one
error (`addError` is called on every failure path). -/
theorem coerce_fail_errs (opts : UOptions) :
    ∀ (t : FieldType) (p : List String) (v : GoVal) (ip : Bool),
      (valueByReflectType opts t p v ip).ok = false →
      (valueByReflectType opts t p v ip).crashed = false →
      (valueByReflectType opts t p v ip).errs ≠ []
  | .boolT, p, v, ip => by
      intro hok _
      rw [show valueByReflectType opts .boolT p v ip =
        primitiveValue .boolT false (.vbool false) convBool p v ip from rfl] at hok ⊢
      rw [primitiveValue_fail hok]
      simp
  | .intT, p, v, ip => by
      intro hok _
      rw [show valueByReflectType opts .intT p v ip =
        primitiveValue .intT false (.vint 0) convInt p v ip from rfl] at hok ⊢
      rw [primitiveValue_fail hok]
      simp
  | .floatT, p, v, ip => by
      intro hok _
      rw [show valueByReflectType opts .floatT p v ip =
        primitiveValue .floatT false (.vnum 0) convFloat p v ip from rfl] at hok ⊢
      rw [primitiveValue_fail hok]
      simp
  | .stringT, p, v, ip => by
      intro hok _
      rw [show valueByReflectType opts .stringT p v ip =
        primitiveValue .stringT false (.vstr "") convString p v ip from rfl] at hok ⊢
      rw [primitiveValue_fail hok]
      simp
  | .ifaceT, p, v, ip => by
      intro hok _
      rw [show valueByReflectType opts .ifaceT p v ip =
        primitiveValue .ifaceT true .vnil convIface p v ip from rfl] at hok ⊢
      rw [primitiveValue_fail hok]
      simp
  | .sliceT e, p, v, ip => by
      intro hok hcr
      rw [show valueByReflectType opts (.sliceT e) p v ip =
        buildSlice opts.mode (.sliceT e) e (valueByReflectType opts e) p v from rfl]
        at hok hcr ⊢
      rw [buildSlice_fail hok hcr]
      simp
  | .arrayT n e, p, v, ip => by
      intro hok hcr
      rw [show valueByReflectType opts (.arrayT n e) p v ip =
        buildArray opts.mode (.arrayT n e) n e (valueByReflectType opts e) p v from rfl]
        at hok hcr ⊢
      rw [buildArray_fail hok hcr]
      simp
  | .mapT kt vt, p, v, ip => by
      intro hok hcr
      rw [show valueByReflectType opts (.mapT kt vt) p v ip =
        buildMap opts.mode (.mapT kt vt) kt vt (valueByReflectType opts kt)
          (valueByReflectType opts vt) p v from rfl] at hok hcr ⊢
      rw [buildMap_fail hok hcr]
      simp
  | .structT fs, p, v, ip => by
      intro hok hcr
      have hd := structDeref_parts (buildStruct opts fs (structFieldCoercers opts fs) p v)
      rw [show valueByReflectType opts (.structT fs) p v ip =
        structDeref (buildStruct opts fs (structFieldCoercers opts fs) p v) from rfl]
        at hok hcr ⊢
      rw [hd.1] at hok
      rw [hd.2.2.1] at hcr
      rw [hd.2.1]
      rcases buildStruct_fail hok hcr with ⟨mp, st', out, _, hPP, hout, heq2⟩ | heq2
      · rw [heq2]
        simpa using populate_abort_errs
          (fun n ft cf hmem => coercers_fail_errs opts fs n ft cf hmem)
          mp ⟨zeroVals fs, none, []⟩ st' out hPP hout
      · rw [heq2]
        simp
  | .ptrT e, p, v, ip => by
      intro hok hcr
      have hp := ptrT_parts opts e p v ip
      rw [hp.1] at hok
      rw [hp.2.2.1] at hcr
      rw [hp.2.1]
      exact coerce_fail_errs opts e p v true hok hcr
  | .customT f i, p, v, ip => by
      intro hok _
      simp [valueByReflectType] at hok
  | .unsupportedT, p, v, ip => by
      intro _ _
      simp [valueByReflectType]

/-- The property above, transported to every coercer produced by
`structFieldCoercers`. -/
theorem coercers_fail_errs (opts : UOptions) :
    ∀ (fs : FieldSchema) (n : String) (t : FieldType) (cf : CoFn),
      (n, t, cf) ∈ structFieldCoercers opts fs →
      ∀ (p : List String) (v : GoVal) (ip : Bool),
        (cf p v ip).ok = false → (cf p v ip).crashed = false → (cf p v ip).errs ≠ []
  | .nil, n, t, cf => by
      intro h
      simp [structFieldCoercers] at h
  | .cons n1 t1 rest, n, t, cf => by
      intro h
      simp only [structFieldCoercers, List.mem_cons] at h
      rcases h with h | h
      · injection h with h1 h2
        injection h2 with h2 h3
        subst h2; subst h3
        exact fun p v ip => coerce_fail_errs opts t p v ip
      · exact coercers_fail_errs opts rest n t cf h

end

/-- In allow-multiple-errors mode, an invalid non-panicking coercion
records exactly one error: element failures inside containers and
nested struct failures never propagate invalidity in this mode, so
the only failure sites are top-level shape mismatches and unsupported
destination types, each recording a single error. -/
theorem coerce_multi_one (opts : UOptions) (hmode : opts.mode = .allowMultipleErrors) :
    ∀ (t : FieldType) (p : List String) (v : GoVal) (ip : Bool),
      (valueByReflectType opts t p v ip).ok = false →
      (valueByReflectType opts t p v ip).crashed = false →
      (valueByReflectType opts t p v ip).errs.length = 1
  | .boolT, p, v, ip => by
      intro hok _
      rw [show valueByReflectType opts .boolT p v ip =
        primitiveValue .boolT false (.vbool false) convBool p v ip from rfl] at hok ⊢
      rw [primitiveValue_fail hok]
      rfl
  | .intT, p, v, ip => by
      intro hok _
      rw [show valueByReflectType opts .intT p v ip =
        primitiveValue .intT false (.vint 0) convInt p v ip from rfl] at hok ⊢
      rw [primitiveValue_fail hok]
      rfl
  | .floatT, p, v, ip => by
      intro hok _
      rw [show valueByReflectType opts .floatT p v ip =
        primitiveValue .floatT false (.vnum 0) convFloat p v ip from rfl] at hok ⊢
      rw [primitiveValue_fail hok]
      rfl
  | .stringT, p, v, ip => by
      intro hok _
      rw [show valueByReflectType opts .stringT p v ip =
        primitiveValue .stringT false (.vstr "") convString p v ip from rfl] at hok ⊢
      rw [primitiveValue_fail hok]
      rfl
  | .ifaceT, p, v, ip => by
      intro hok _
      rw [show valueByReflectType opts .ifaceT p v ip =
        primitiveValue .ifaceT true .vnil convIface p v ip from rfl] at hok ⊢
      rw [primitiveValue_fail hok]
      rfl
  | .sliceT e, p, v, ip => by
      intro hok hcr
      rw [show valueByReflectType opts (.sliceT e) p v ip =
        buildSlice opts.mode (.sliceT e) e (valueByReflectType opts e) p v from rfl]
        at hok hcr ⊢
      rw [buildSlice_fail hok hcr]
      rfl
  | .arrayT n e, p, v, ip => by
      intro hok hcr
      rw [show valueByReflectType opts (.arrayT n e) p v ip =
        buildArray opts.mode (.arrayT n e) n e (valueByReflectType opts e) p v from rfl]
        at hok hcr ⊢
      rw [buildArray_fail hok hcr]
      rfl
  | .mapT kt vt, p, v, ip => by
      intro hok hcr
      rw [show valueByReflectType opts (.mapT kt vt) p v ip =
        buildMap opts.mode (.mapT kt vt) kt vt (valueByReflectType opts kt)
          (valueByReflectType opts vt) p v from rfl] at hok hcr ⊢
      rw [buildMap_fail hok hcr]
      rfl
  | .structT fs, p, v, ip => by
      intro hok hcr
      have hd := structDeref_parts (buildStruct opts fs (structFieldCoercers opts fs) p v)
      rw [show valueByReflectType opts (.structT fs) p v ip =
        structDeref (buildStruct opts fs (structFieldCoercers opts fs) p v) from rfl]
        at hok hcr ⊢
      rw [hd.1] at hok
      rw [hd.2.2.1] at hcr
      rw [hd.2.1]
      rcases buildStruct_fail hok hcr with ⟨mp, st', out, _, hPP, hout, _⟩ | heq2
      · exfalso
        have h2 : (populateStruct opts (structFieldCoercers opts fs) p mp
              ⟨zeroVals fs, none, []⟩).2 = .done ∨
            (populateStruct opts (structFieldCoercers opts fs) p mp
              ⟨zeroVals fs, none, []⟩).2 = .crashed :=
          populate_multi_out hmode mp ⟨zeroVals fs, none, []⟩
        rw [hPP] at h2
        rcases hout with h | h <;> rw [h] at h2 <;> simp at h2
      · rw [heq2]
        rfl
  | .ptrT e, p, v, ip => by
      intro hok hcr
      have hp := ptrT_parts opts e p v ip
      rw [hp.1] at hok
      rw [hp.2.2.1] at hcr
      rw [hp.2.1]
      exact coerce_multi_one opts hmode e p v true hok hcr
  | .customT f i, p, v, ip => by
      intro hok _
      simp [valueByReflectType] at hok
  | .unsupportedT, p, v, ip => by
      intro _ _
      rfl

/-- A coercion applied to JSON `null` never panics. -/
theorem coerce_null_nocrash (opts : UOptions) :
    ∀ (t : FieldType) (p : List String) (ip : Bool),
      (valueByReflectType opts t p .vnil ip).crashed = false
  | .boolT, p, ip => by simp [valueByReflectType, primitiveValue, GoVal.isNil, apply_ite]
  | .intT, p, ip => by simp [valueByReflectType, primitiveValue, GoVal.isNil, apply_ite]
  | .floatT, p, ip => by simp [valueByReflectType, primitiveValue, GoVal.isNil, apply_ite]
  | .stringT, p, ip => by simp [valueByReflectType, primitiveValue, GoVal.isNil, apply_ite]
  | .ifaceT, p, ip => by simp [valueByReflectType, primitiveValue, GoVal.isNil, apply_ite]
  | .sliceT e, p, ip => rfl
  | .arrayT n e, p, ip => rfl
  | .mapT kt vt, p, ip => rfl
  | .structT fs, p, ip => rfl
  | .ptrT e, p, ip => by
      have hp := ptrT_parts opts e p .vnil ip
      rw [hp.2.2.1]
      exact coerce_null_nocrash opts e p true
  | .customT f i, p, ip => rfl
  | .unsupportedT, p, ip => rfl

/-- On pointee types that are not custom-decoder types and not struct
types, the pointer case of `valueByReflectType` is the pointee
coercion in optional context followed by `ptrWrap`. -/
theorem valueByReflectType_ptr_eq (opts : UOptions) (e : FieldType)
    (h1 : ∀ f i, e ≠ .customT f i) (h2 : ∀ fs, e ≠ .structT fs)
    (p : List String) (v : GoVal) (ip : Bool) :
    valueByReflectType opts (.ptrT e) p v ip =
      ptrWrap (valueByReflectType opts e p v true) := by
  cases e
  case customT f i => exact absurd rfl (h1 f i)
  case structT fs => exact absurd rfl (h2 fs)
  all_goals rfl

/-- Against a destination whose pointee chain is free of unsupported
and custom-decoder types, a `null` input in optional context yields
`nil` with no error. -/
theorem coerce_null_benign (opts : UOptions) :
    ∀ (e : FieldType), nullBenign e = true →
      ∀ (p : List String),
        valueByReflectType opts e p .vnil true = ⟨.vnil, true, [], false⟩
  | .boolT, _, p => rfl
  | .intT, _, p => rfl
  | .floatT, _, p => rfl
  | .stringT, _, p => rfl
  | .ifaceT, _, p => rfl
  | .sliceT e, _, p => rfl
  | .arrayT n e, _, p => rfl
  | .mapT kt vt, _, p => rfl
  | .structT fs, _, p => rfl
  | .ptrT e, hb, p => by
      have hb' : nullBenign e = true := by simpa [nullBenign] using hb
      cases e
      case customT f i => simp [nullBenign] at hb'
      case structT fs => rfl
      all_goals
        (rw [valueByReflectType_ptr_eq opts _ (fun f i h => by cases h)
            (fun fs h => by cases h) p .vnil true,
          coerce_null_benign opts _ hb' p]
         rfl)
  | .customT f i, hb, p => by simp [nullBenign] at hb
  | .unsupportedT, hb, p => by simp [nullBenign] at hb

/-- A destination that rejects `null` (reports invalid on it) rejects
every input: `null` is never by itself the cause of a coercion
failure. -/
theorem coerce_null_fail_all (opts : UOptions) :
    ∀ (t : FieldType) (p : List String) (ip : Bool),
      (valueByReflectType opts t p .vnil ip).ok = false →
      ∀ (p' : List String) (v : GoVal) (ip' : Bool),
        (valueByReflectType opts t p' v ip').ok = false
  | .boolT, p, ip => by
      intro h
      simp [valueByReflectType, primitiveValue, GoVal.isNil, apply_ite] at h
  | .intT, p, ip => by
      intro h
      simp [valueByReflectType, primitiveValue, GoVal.isNil, apply_ite] at h
  | .floatT, p, ip => by
      intro h
      simp [valueByReflectType, primitiveValue, GoVal.isNil, apply_ite] at h
  | .stringT, p, ip => by
      intro h
      simp [valueByReflectType, primitiveValue, GoVal.isNil, apply_ite] at h
  | .ifaceT, p, ip => by
      intro h
      simp [valueByReflectType, primitiveValue, GoVal.isNil, apply_ite] at h
  | .sliceT e, p, ip => by intro h; simp [valueByReflectType, buildSlice] at h
  | .arrayT n e, p, ip => by intro h; simp [valueByReflectType, buildArray] at h
  | .mapT kt vt, p, ip => by intro h; simp [valueByReflectType, buildMap] at h
  | .structT fs, p, ip => by
      intro h
      simp [valueByReflectType, buildStruct, structDeref] at h
  | .ptrT e, p, ip => by
      intro h p' v ip'
      have hp := ptrT_parts opts e p .vnil ip
      rw [hp.1] at h
      have hall := coerce_null_fail_all opts e p true h
      have hp' := ptrT_parts opts e p' v ip'
      rw [hp'.1]
      exact hall p' v true
  | .customT f i, p, ip => by
      intro h
      simp [valueByReflectType] at h
  | .unsupportedT, p, ip => by
      intro _ p' v ip'
      rfl

/-! ### Support lemmas for the claim theorems -/

section SupportLemmas

variable {opts : UOptions} {cos : List (String × FieldType × CoFn)} {path : List String}

theorem entriesErrs_ne_of_mem {kv : String × GoVal} :
    ∀ (entries : List (String × GoVal)), kv ∈ entries →
      entryErrs cos path kv ≠ [] → entriesErrs cos path entries ≠ [] := by
  intro entries
  induction entries with
  | nil => intro h; cases h
  | cons kv1 rest ih =>
      intro hmem hne
      rcases List.mem_cons.mp hmem with h | h
      · subst h
        simp [entriesErrs, hne]
      · simp [entriesErrs, ih h hne]

theorem entryErrs_nil_of_clean {kv : String × GoVal}
    (hclean : entryCleanOk cos path kv = true)
    (hnf : fieldFails cos path kv = false) : entryErrs cos path kv = [] := by
  simp only [entryCleanOk, fieldFails, entryErrs] at hclean hnf ⊢
  rcases hr : entryRes cos path kv with _ | r
  · rfl
  · rw [hr] at hclean hnf
    simp only at hclean hnf ⊢
    have hok : r.ok = true := by
      cases hb : r.ok
      · rw [hb] at hnf; cases hnf
      · rfl
    rw [hok] at hclean
    simpa using hclean

theorem entriesErrs_length_clean
    (hco : ∀ kv, fieldFails cos path kv = true → entryCrashed cos path kv = false →
      (entryErrs cos path kv).length = 1) :
    ∀ (entries : List (String × GoVal)),
      (∀ kv ∈ entries, entryCleanOk cos path kv = true) →
      (∀ kv ∈ entries, entryCrashed cos path kv = false) →
      (entriesErrs cos path entries).length =
        (entries.filter (fun kv => fieldFails cos path kv)).length := by
  intro entries
  induction entries with
  | nil => intro _ _; rfl
  | cons kv rest ih =>
      intro hclean hnc
      have htail := ih (fun kv h => hclean kv (List.mem_cons_of_mem _ h))
        (fun kv h => hnc kv (List.mem_cons_of_mem _ h))
      cases hf : fieldFails cos path kv
      · have := entryErrs_nil_of_clean (hclean kv (List.mem_cons_self _ _)) hf
        simp [entriesErrs, List.filter_cons, hf, this, htail, Nat.add_comm]
      · have := hco kv hf (hnc kv (List.mem_cons_self _ _))
        simp [entriesErrs, List.filter_cons, hf, this, htail, Nat.add_comm]

theorem fieldFails_multi_one
    (hmode : opts.mode = .allowMultipleErrors) (fs : FieldSchema)
    (kv : String × GoVal)
    (hfail : fieldFails (structFieldCoercers opts fs) path kv = true)
    (hcrash : entryCrashed (structFieldCoercers opts fs) path kv = false) :
    (entryErrs (structFieldCoercers opts fs) path kv).length = 1 := by
  simp only [fieldFails, entryCrashed, entryErrs, entryRes] at hfail hcrash ⊢
  rcases hf : fieldByName (structFieldCoercers opts fs) kv.1 with _ | ⟨idx, ft, cf⟩
  · rw [hf] at hfail; simp at hfail
  · rw [hf] at hfail hcrash
    simp only [Option.map_some'] at hfail hcrash ⊢
    have hcf := (structFieldCoercers_get opts fs idx kv.1 ft cf
      (fieldByName_get _ _ _ _ _ hf)).1
    subst hcf
    exact coerce_multi_one opts hmode ft _ _ _ (by simpa using hfail)
      (by simpa using hcrash)

theorem populate_no_failRaw :
    ∀ (entries : List (String × GoVal)) (st : PopSt), st.res.isSome →
      (populateStruct opts cos path entries st).2 ≠ .failRaw := by
  intro entries
  induction entries with
  | nil => intro st _ h; cases h
  | cons kv rest ih =>
      intro st hres
      obtain ⟨key, v⟩ := kv
      simp only [populateStruct]
      rcases hstep : popStep opts cos path st key v with st1 | ⟨st1, out1⟩
      · obtain ⟨r0, hr0⟩ := Option.isSome_iff_exists.mp hres
        exact ih st1 (by rw [popStep_cont_res hstep hr0]; rfl)
      · rcases popStep_halt_cases hstep with ⟨hc, _⟩ | ⟨hc, _⟩ | ⟨_, _, hn, _⟩
        · subst hc; intro h; cases h
        · subst hc; intro h; cases h
        · rw [hn] at hres; cases hres

end SupportLemmas

/-- When `UnmarshalFromJSONMap` returns a non-nil map, the key loop
ran to completion and the returned map is the loop's dynamic map. -/
theorem unmarshal_map_some (opts : UOptions) (fs : FieldSchema) (init : List GoVal)
    (entries : List (String × GoVal)) (m : List (String × GoVal))
    (hmap : (UnmarshalFromJSONMap opts (.structPtr fs init) (some entries)).map = some m) :
    ∃ st', populateStruct opts (structFieldCoercers opts fs) [] entries
        ⟨init, some [], []⟩ = (st', .done) ∧ st'.res = some m := by
  rcases hrun : populateStruct opts (structFieldCoercers opts fs) [] entries
    ⟨init, some [], []⟩ with ⟨st', out⟩
  cases out
  case crashed =>
      rw [unmarshal_run_crashed opts fs init entries st' hrun] at hmap
      cases hmap
  case failRaw =>
      exact absurd (by rw [hrun] : (populateStruct opts (structFieldCoercers opts fs) []
        entries ⟨init, some [], []⟩).2 = .failRaw)
        (populate_no_failRaw entries ⟨init, some [], []⟩ rfl)
  case failFirst =>
      exfalso
      have hm : opts.mode = .failOnFirstError := by
        by_contra hmm
        exact populate_no_failFirst hmm entries ⟨init, some [], []⟩ (by rw [hrun])
      have herrs : st'.errs ≠ [] :=
        populate_abort_errs (fun n ft cf hmem => coercers_fail_errs opts fs n ft cf hmem)
          entries ⟨init, some [], []⟩ st' .failFirst hrun (Or.inl rfl)
      rw [unmarshal_run_eq opts fs init entries st' .failFirst hrun
        (by intro h; cases h), hm] at hmap
      rcases hlast : st'.errs.getLast? with _ | e
      · exact herrs (List.getLast?_eq_none_iff.mp hlast)
      · rw [hlast] at hmap
        simp at hmap
  case done =>
      refine ⟨st', rfl, ?_⟩
      rw [unmarshal_run_eq opts fs init entries st' .done hrun (by intro h; cases h)]
        at hmap
      rcases hmode : opts.mode with _ | _ | _ <;> rw [hmode] at hmap
      · rcases hlast : st'.errs.getLast? with _ | e <;> rw [hlast] at hmap
        · simpa using hmap
        · simp at hmap
      · rcases herrs : st'.errs with _ | ⟨e, es⟩ <;> rw [herrs] at hmap <;> simpa using hmap
      · rcases herrs : st'.errs with _ | ⟨e, es⟩ <;> rw [herrs] at hmap <;> simpa using hmap

/-! ### The claims -/

/-- **C1.** For every input JSON object, target struct type and decode
mode, every key of the input that does not match any known field of
the target struct appears in the returned dynamic map with exactly its
original raw input value (in fail-on-first-error mode the map is
returned only when no field's coercion fails; whenever a map is
returned, unknown keys are preserved verbatim in it). -/
theorem C1_unknown_fields_preserved (opts : UOptions) (fs : FieldSchema)
    (init : List GoVal) (entries : List (String × GoVal)) (k : String) (v : GoVal)
    (m : List (String × GoVal))
    (hnod : (entries.map Prod.fst).Nodup)
    (hmem : (k, v) ∈ entries)
    (hunk : k ∉ schemaNames fs)
    (hmap : (UnmarshalFromJSONMap opts (.structPtr fs init) (some entries)).map = some m) :
    mapLookup m k = some v := by
  obtain ⟨st', hrun, hres⟩ := unmarshal_map_some opts fs init entries m hmap
  obtain ⟨r', hr', hchar⟩ :=
    populate_lookup_done entries ⟨init, some [], []⟩ st' hnod hrun [] rfl
  rw [hres] at hr'
  injection hr' with hr'
  subst hr'
  rw [hchar k]
  have hfn : fieldByName (structFieldCoercers opts fs) k = none :=
    (fieldByName_none_iff opts fs k).mpr hunk
  simp only [lookupOutcome, mapLookup_of_mem_nodup entries k v hnod hmem, keyOutcome, hfn]

/-- Witness for C1: decoding `{"foo":"bar","extra":5}` into
`struct { Foo string; Boo []int }` preserves the unknown key `extra`
with its raw value. -/
theorem C1_witness :
    mapLookup [("foo", GoVal.vstr "bar"), ("extra", GoVal.vnum 5)] "extra" =
      some (GoVal.vnum 5) :=
  C1_unknown_fields_preserved ⟨.failOnFirstError, false⟩ c1Schema (zeroVals c1Schema)
    c1Entries "extra" (.vnum 5) [("foo", GoVal.vstr "bar"), ("extra", GoVal.vnum 5)]
    (by decide) (List.mem_cons_of_mem _ (List.mem_cons_self _ _)) (by decide) rfl

/-- **C2** (counterexample): under allow-multiple-errors, a slice
field whose elements mismatch still reports valid, so against
`{"a":["x"],"b":"s"}` and `struct { A []int; B bool }` the key `a` is
*not* omitted from the map — it appears holding `nil` — and the
aggregate carries its element error besides `b`'s field error: two
errors although only one field reports invalid, refuting both the
claimed key set and the claimed one-error-per-failing-field count. -/
theorem C2_counterexample :
    (UnmarshalFromJSONMap ⟨.allowMultipleErrors, false⟩
        (.structPtr c4Schema (zeroVals c4Schema))
        (some [("a", .varr [.vstr "x"]), ("b", .vstr "s")])).map =
      some [("a", GoVal.vnil)] ∧
    (UnmarshalFromJSONMap ⟨.allowMultipleErrors, false⟩
        (.structPtr c4Schema (zeroVals c4Schema))
        (some [("a", .varr [.vstr "x"]), ("b", .vstr "s")])).err =
      some (.multiple [.unexpectedType .intT ["a"], .unexpectedType .boolT ["b"]]) ∧
    fieldFails (structFieldCoercers ⟨.allowMultipleErrors, false⟩ c4Schema) []
      ("a", .varr [.vstr "x"]) = false :=
  ⟨rfl, rfl, rfl⟩

/-- **C2** (amended). Under allow-multiple-errors mode, when no
coercion panics, an input with at least one field reporting invalid
decodes to a non-nil map whose key set is the input's keys minus
exactly the keys whose field coercion reports invalid — container
fields whose elements fail still report valid, so their keys stay in
the map, holding the coercion's returned value — together with a
non-nil `MultipleError` carrying every recorded error in processing
order: exactly one per invalid-reporting field, plus each element-level
error recorded inside fields that report valid. -/
theorem C2_amended (opts : UOptions) (hmode : opts.mode = .allowMultipleErrors)
    (fs : FieldSchema) (init : List GoVal) (entries : List (String × GoVal))
    (hnod : (entries.map Prod.fst).Nodup)
    (hnc : ∀ kv ∈ entries, entryCrashed (structFieldCoercers opts fs) [] kv = false)
    (hex : ∃ kv ∈ entries, fieldFails (structFieldCoercers opts fs) [] kv = true) :
    ∃ m es,
      (UnmarshalFromJSONMap opts (.structPtr fs init) (some entries)).map = some m ∧
      (UnmarshalFromJSONMap opts (.structPtr fs init) (some entries)).err =
        some (.multiple es) ∧
      (∀ k v, (k, v) ∈ entries →
        (mapLookup m k).isSome = !fieldFails (structFieldCoercers opts fs) [] (k, v)) ∧
      (∀ k, mapLookup entries k = none → mapLookup m k = none) ∧
      es = entriesErrs (structFieldCoercers opts fs) [] entries ∧
      (∀ kv ∈ entries, fieldFails (structFieldCoercers opts fs) [] kv = true →
        (entryErrs (structFieldCoercers opts fs) [] kv).length = 1) ∧
      es ≠ [] := by
  have hmff : opts.mode ≠ .failOnFirstError := by rw [hmode]; intro h; cases h
  rcases hrun : populateStruct opts (structFieldCoercers opts fs) [] entries
    ⟨init, some [], []⟩ with ⟨st', out⟩
  have hdone : out = .done := by
    have h : (populateStruct opts (structFieldCoercers opts fs) [] entries
        ⟨init, some [], []⟩).2 = .done :=
      populate_done hmff entries ⟨init, some [], []⟩ rfl hnc
    rw [hrun] at h
    exact h
  subst hdone
  obtain ⟨m, hres, hchar⟩ :=
    populate_lookup_done entries ⟨init, some [], []⟩ st' hnod hrun [] rfl
  have hu := unmarshal_run_eq opts fs init entries st' .done hrun
    (by intro h; cases h)
  have herr : st'.errs = entriesErrs (structFieldCoercers opts fs) [] entries := by
    have h := populate_errs_done _ _ _ hrun
    simpa using h
  obtain ⟨⟨kk, vv⟩, hkm, hkf⟩ := hex
  have hne : entriesErrs (structFieldCoercers opts fs) [] entries ≠ [] :=
    entriesErrs_ne_of_mem entries hkm
      (entryErrs_ne_of_fail
        (fun n ft cf hm => coercers_fail_errs opts fs n ft cf hm) hkf
        (hnc (kk, vv) hkm))
  have hsne : st'.errs ≠ [] := by rw [herr]; exact hne
  rcases h2 : st'.errs with _ | ⟨e, es0⟩
  · exact absurd h2 hsne
  · refine ⟨m, e :: es0, ?_, ?_, ?_, ?_, ?_, ?_, by simp⟩
    · simp only [hu, hmode]
      exact hres
    · simp only [hu, hmode]
      rw [h2]
    · intro k v hmem
      rw [hchar k]
      simp only [lookupOutcome, mapLookup_of_mem_nodup entries k v hnod hmem]
      rcases hf : fieldByName (structFieldCoercers opts fs) k with _ | ⟨idx, ft, cf⟩
      · simp [keyOutcome, hf, fieldFails, entryRes]
      · simp only [keyOutcome, hf, fieldFails, entryRes, Option.map_some', hmode]
        by_cases hok : (cf [k] v false).ok <;>
          simp [hok, mapLookup]
    · intro k hnone
      rw [hchar k]
      simp [lookupOutcome, hnone, mapLookup]
    · rw [← h2, herr]
    · intro kv hkv hff
      exact fieldFails_multi_one hmode fs kv hff (hnc kv hkv)

/-- Witness for the amended C2: decoding `{"a":["x"],"b":"s"}` into
`struct { A []int; B bool }` under allow-multiple-errors — `b` reports
invalid and is omitted, `a` reports valid (with an element error) and
stays, and both errors are aggregated. -/
theorem C2_amended_witness :
    ∃ m es,
      (UnmarshalFromJSONMap ⟨.allowMultipleErrors, false⟩
          (.structPtr c4Schema (zeroVals c4Schema))
          (some [("a", GoVal.varr [GoVal.vstr "x"]), ("b", GoVal.vstr "s")])).map =
        some m ∧
      (UnmarshalFromJSONMap ⟨.allowMultipleErrors, false⟩
          (.structPtr c4Schema (zeroVals c4Schema))
          (some [("a", GoVal.varr [GoVal.vstr "x"]), ("b", GoVal.vstr "s")])).err =
        some (.multiple es) ∧
      (∀ k v, (k, v) ∈ [("a", GoVal.varr [GoVal.vstr "x"]), ("b", GoVal.vstr "s")] →
        (mapLookup m k).isSome =
          !fieldFails (structFieldCoercers ⟨.allowMultipleErrors, false⟩ c4Schema) []
            (k, v)) ∧
      (∀ k, mapLookup [("a", GoVal.varr [GoVal.vstr "x"]), ("b", GoVal.vstr "s")] k =
          none → mapLookup m k = none) ∧
      es = entriesErrs (structFieldCoercers ⟨.allowMultipleErrors, false⟩ c4Schema) []
        [("a", GoVal.varr [GoVal.vstr "x"]), ("b", GoVal.vstr "s")] ∧
      (∀ kv ∈ [("a", GoVal.varr [GoVal.vstr "x"]), ("b", GoVal.vstr "s")],
        fieldFails (structFieldCoercers ⟨.allowMultipleErrors, false⟩ c4Schema) []
          kv = true →
        (entryErrs (structFieldCoercers ⟨.allowMultipleErrors, false⟩ c4Schema) []
          kv).length = 1) ∧
      es ≠ [] :=
  C2_amended ⟨.allowMultipleErrors, false⟩ rfl c4Schema (zeroVals c4Schema)
    [("a", GoVal.varr [GoVal.vstr "x"]), ("b", GoVal.vstr "s")]
    (by decide)
    (by
      intro kv hkv
      rcases List.mem_cons.mp hkv with rfl | h
      · rfl
      · rcases List.mem_singleton.mp h with rfl
        rfl)
    ⟨("b", GoVal.vstr "s"), List.mem_cons_of_mem _ (List.mem_cons_self _ _), rfl⟩

/-- **C4** (counterexample): in fail-on-first-error mode, a failure
*inside* a slice element does not abort the decode — the key loop
continues to the next key, a later failing key overwrites the
decoder's single error, and the error returned is the *last* recorded
one, not the first. -/
theorem C4_counterexample :
    (UnmarshalFromJSONMap ⟨.failOnFirstError, false⟩
        (.structPtr c4Schema (zeroVals c4Schema))
        (some [("a", .varr [.vstr "x"]), ("b", .vnum 3)])).err =
      some (.single (.unexpectedType .boolT ["b"])) ∧
    entryErrs (structFieldCoercers ⟨.failOnFirstError, false⟩ c4Schema) []
      ("a", .varr [.vstr "x"]) = [.unexpectedType .intT ["a"]] ∧
    Err.unexpectedType .boolT ["b"] ≠ Err.unexpectedType .intT ["a"] :=
  ⟨rfl, rfl, fun h => by injection h with h1 _; exact FieldType.noConfusion h1⟩

/-- **C4** (amended). Under fail-on-first-error mode, the decode
aborts at the first key whose coercion reports invalid (failures
recorded inside element loops of fields that still report valid do not
abort): no key after it is processed — the result does not depend on
the remaining input — and `UnmarshalFromJSONMap` returns a nil map
together with a single non-nil error. -/
theorem C4_amended (opts : UOptions) (hmode : opts.mode = .failOnFirstError)
    (fs : FieldSchema) (init : List GoVal) (pre post post' : List (String × GoVal))
    (k : String) (v : GoVal)
    (hpre : ∀ kv ∈ pre, entryPasses (structFieldCoercers opts fs) [] kv = true)
    (hfail : fieldFails (structFieldCoercers opts fs) [] (k, v) = true)
    (hcrash : entryCrashed (structFieldCoercers opts fs) [] (k, v) = false) :
    UnmarshalFromJSONMap opts (.structPtr fs init) (some (pre ++ (k, v) :: post)) =
      UnmarshalFromJSONMap opts (.structPtr fs init) (some (pre ++ (k, v) :: post')) ∧
    (UnmarshalFromJSONMap opts (.structPtr fs init)
        (some (pre ++ (k, v) :: post))).map = none ∧
    ∃ e, (UnmarshalFromJSONMap opts (.structPtr fs init)
        (some (pre ++ (k, v) :: post))).err = some (.single e) := by
  obtain ⟨heq1, hout⟩ := populate_failFirst_abort hmode pre ⟨init, some [], []⟩
    k v post hpre rfl hfail hcrash
  obtain ⟨heq2, _⟩ := populate_failFirst_abort hmode pre ⟨init, some [], []⟩
    k v post' hpre rfl hfail hcrash
  rcases hrun : populateStruct opts (structFieldCoercers opts fs) []
    (pre ++ [(k, v)]) ⟨init, some [], []⟩ with ⟨st', out⟩
  have hout2 : out = .failFirst := by rw [hrun] at hout; exact hout
  subst hout2
  have h1 : populateStruct opts (structFieldCoercers opts fs) []
      (pre ++ (k, v) :: post) ⟨init, some [], []⟩ = (st', .failFirst) :=
    heq1.trans hrun
  have h2 : populateStruct opts (structFieldCoercers opts fs) []
      (pre ++ (k, v) :: post') ⟨init, some [], []⟩ = (st', .failFirst) :=
    heq2.trans hrun
  have hu1 := unmarshal_run_eq opts fs init _ st' .failFirst h1 (by intro h; cases h)
  have hu2 := unmarshal_run_eq opts fs init _ st' .failFirst h2 (by intro h; cases h)
  have herrne : st'.errs ≠ [] :=
    populate_abort_errs (fun n ft cf hm => coercers_fail_errs opts fs n ft cf hm)
      _ _ _ _ h1 (Or.inl rfl)
  rcases hl : st'.errs.getLast? with _ | e
  · exact absurd (List.getLast?_eq_none_iff.mp hl) herrne
  · refine ⟨hu1.trans hu2.symm, ?_, e, ?_⟩
    · simp only [hu1, hmode]
      rw [hl]
    · simp only [hu1, hmode]
      rw [hl]

/-- Witness for the amended C4: decoding
`{"x":"ok","y":3,"z":1}` into `struct { X string; Y bool }` in
fail-on-first-error mode aborts at `y` — dropping the suffix after `y`
does not change the result — and returns a nil map and one error. -/
theorem C4_amended_witness :
    UnmarshalFromJSONMap ⟨.failOnFirstError, false⟩
        (.structPtr c4WSchema (zeroVals c4WSchema))
        (some ([("x", GoVal.vstr "ok")] ++ ("y", GoVal.vnum 3) ::
          [("z", GoVal.vnum 1)])) =
      UnmarshalFromJSONMap ⟨.failOnFirstError, false⟩
        (.structPtr c4WSchema (zeroVals c4WSchema))
        (some ([("x", GoVal.vstr "ok")] ++ ("y", GoVal.vnum 3) :: [])) ∧
    (UnmarshalFromJSONMap ⟨.failOnFirstError, false⟩
        (.structPtr c4WSchema (zeroVals c4WSchema))
        (some ([("x", GoVal.vstr "ok")] ++ ("y", GoVal.vnum 3) ::
          [("z", GoVal.vnum 1)]))).map = none ∧
    ∃ e, (UnmarshalFromJSONMap ⟨.failOnFirstError, false⟩
        (.structPtr c4WSchema (zeroVals c4WSchema))
        (some ([("x", GoVal.vstr "ok")] ++ ("y", GoVal.vnum 3) ::
          [("z", GoVal.vnum 1)]))).err = some (.single e) :=
  C4_amended ⟨.failOnFirstError, false⟩ rfl c4WSchema (zeroVals c4WSchema)
    [("x", GoVal.vstr "ok")] [("z", GoVal.vnum 1)] [] "y" (GoVal.vnum 3)
    (by intro kv hkv; rw [List.mem_singleton] at hkv; subst hkv; rfl) rfl rfl

/-- **C5** (counterexample): a `null` against a field whose type is a
pointer to an unsupported kind *is* by itself a coercion error — the
pointee coercion records an unsupported-type error before looking at
the value — refuting "a null is never by itself a coercion error for
any destination kind". -/
theorem C5_counterexample :
    (UnmarshalFromJSONMap ⟨.failOnFirstError, false⟩
        (.structPtr c5Schema (zeroVals c5Schema)) (some [("a", GoVal.vnil)])).err =
      some (.single (.unsupportedType .unsupportedT ["a"])) ∧
    (UnmarshalFromJSONMap ⟨.failOnFirstError, false⟩
        (.structPtr c5Schema (zeroVals c5Schema)) (some [("a", GoVal.vnil)])).map =
      none :=
  ⟨rfl, rfl⟩

/-- Pointer destinations over every kind except unsupported and
custom-decoder ones turn a `null` into a successful explicit absence. -/
theorem coerce_null_ptr (opts : UOptions) :
    ∀ (e : FieldType), nullBenign e = true → ∀ (p : List String) (ip : Bool),
      valueByReflectType opts (.ptrT e) p .vnil ip = ⟨.vnil, true, [], false⟩
  | .boolT, _, p, ip => rfl
  | .intT, _, p, ip => rfl
  | .floatT, _, p, ip => rfl
  | .stringT, _, p, ip => rfl
  | .ifaceT, _, p, ip => rfl
  | .sliceT e, _, p, ip => rfl
  | .arrayT n e, _, p, ip => rfl
  | .mapT kt vt, _, p, ip => rfl
  | .structT fs, _, p, ip => rfl
  | .ptrT e, hb, p, ip => by
      show ptrWrap (valueByReflectType opts (.ptrT e) p .vnil true) = _
      rw [coerce_null_benign opts (.ptrT e) hb p]
      rfl
  | .customT f i, hb, p, ip => by cases hb
  | .unsupportedT, hb, p, ip => by cases hb

/-- **C5** (amended). A nil top-level input yields a nil error, an
empty non-nil map, and an untouched target struct; a null against a
non-optional primitive field yields that field's zero value with no
error; a null against an interface field, or a pointer field over any
kind other than unsupported and custom-decoder ones, yields an
explicit absent value with no error; and whenever a null fails against
some destination, every value fails against that destination (the
failure is never caused by the null itself). -/
theorem C5_amended (opts : UOptions) :
    (∀ (fs : FieldSchema) (init : List GoVal),
      UnmarshalFromJSONMap opts (.structPtr fs init) none =
        ⟨some [], none, init, false⟩) ∧
    (∀ t, isPrimNonOpt t = true → ∀ p,
      valueByReflectType opts t p .vnil false = ⟨zeroVal t, true, [], false⟩) ∧
    (∀ p ip, valueByReflectType opts .ifaceT p .vnil ip = ⟨.vnil, true, [], false⟩) ∧
    (∀ e, nullBenign e = true → ∀ p ip,
      valueByReflectType opts (.ptrT e) p .vnil ip = ⟨.vnil, true, [], false⟩) ∧
    (∀ t p ip, (valueByReflectType opts t p .vnil ip).ok = false →
      ∀ p' v ip', (valueByReflectType opts t p' v ip').ok = false) := by
  refine ⟨?_, ?_, ?_, coerce_null_ptr opts, coerce_null_fail_all opts⟩
  · intro fs init
    rcases opts with ⟨mode, skip⟩
    cases mode <;> rfl
  · intro t hp p
    cases t <;> first | (simp only [zeroVal]; rfl) | cases hp
  · intro p ip
    cases ip <;> rfl

/-- Witness for the amended C5: nil input against the example schema,
a null into an `int` field, an `interface{}` field, a `*int` field,
and the everything-fails destination kind. -/
theorem C5_amended_witness :
    UnmarshalFromJSONMap ⟨.failOnFirstError, false⟩
        (.structPtr c1Schema (zeroVals c1Schema)) none =
      ⟨some [], none, zeroVals c1Schema, false⟩ ∧
    valueByReflectType ⟨.failOnFirstError, false⟩ .intT ["a"] .vnil false =
      ⟨.vint 0, true, [], false⟩ ∧
    valueByReflectType ⟨.failOnFirstError, false⟩ .ifaceT ["a"] .vnil false =
      ⟨.vnil, true, [], false⟩ ∧
    valueByReflectType ⟨.failOnFirstError, false⟩ (.ptrT .intT) ["a"] .vnil false =
      ⟨.vnil, true, [], false⟩ ∧
    (valueByReflectType ⟨.failOnFirstError, false⟩ .unsupportedT ["b"]
      (.vbool true) false).ok = false :=
  have h := C5_amended ⟨.failOnFirstError, false⟩
  ⟨h.1 c1Schema (zeroVals c1Schema), h.2.1 .intT rfl ["a"],
    h.2.2.1 ["a"] false, h.2.2.2.1 .intT rfl ["a"] false,
    h.2.2.2.2 .unsupportedT ["a"] false rfl ["b"] (.vbool true) false⟩

/-- **C6** (code bug): coercing a two-element JSON array into a
`[1]bool` destination performs an out-of-range `reflect.Value.Index`
access (a runtime panic) instead of ignoring the element beyond
capacity; the same decode with the input inside capacity completes
without panic. -/
theorem C6_array_overflow_panics :
    (UnmarshalFromJSONMap ⟨.failOnFirstError, false⟩
        (.structPtr c6Schema (zeroVals c6Schema))
        (some [("a", .varr [.vbool true, .vbool false])])).crashed = true ∧
    (UnmarshalFromJSONMap ⟨.failOnFirstError, false⟩
        (.structPtr c6Schema (zeroVals c6Schema))
        (some [("a", .varr [.vbool true])])).crashed = false :=
  ⟨rfl, rfl⟩

/-- **C7.** If the destination is nil or not a non-nil pointer to a
struct, `UnmarshalFromJSONMap` returns a nil map and `ErrInvalidValue`
immediately, for every input and options, with no key processed and no
partial result. -/
theorem C7_invalid_value (opts : UOptions) (data : Option (List (String × GoVal))) :
    UnmarshalFromJSONMap opts .invalid data = ⟨none, some .invalidValue, [], false⟩ :=
  rfl

/-- **C8** (counterexample): a destination type whose custom
unmarshaler always errors still reports `ok = true` from the coercion
(the claim's "the coercion reports ok=false" is wrong), while the
custom error is recorded verbatim. -/
theorem C8_counterexample :
    (valueByReflectType ⟨.failOnFirstError, false⟩ (.customT true 7) ["a"]
      (.vstr "x") false).ok = true ∧
    (valueByReflectType ⟨.failOnFirstError, false⟩ (.customT true 7) ["a"]
      (.vstr "x") false).errs = [.custom 7] :=
  ⟨rfl, rfl⟩

/-- **C8** (amended). When the target type (or its pointer form)
implements the custom decode-from-value capability, the coercion
delegates entirely to it; an error raised by the custom decoder is
captured by the active error policy and surfaced verbatim (not wrapped
as a coercion error) and aggregated per mode like any other field
error, but the coercion reports `ok = true` with the freshly allocated
instance as its value. -/
theorem C8_amended (opts : UOptions) (fails : Bool) (errId : Nat) (p : List String)
    (v : GoVal) (ip : Bool) (n : String) (init : List GoVal) (w : GoVal) :
    valueByReflectType opts (.customT fails errId) p v ip =
      ⟨.vcustom fails errId, true, if fails then [.custom errId] else [], false⟩ ∧
    valueByReflectType opts (.ptrT (.customT fails errId)) p v ip =
      ⟨.vptr (.vcustom fails errId), true,
        if fails then [.custom errId] else [], false⟩ ∧
    (opts.mode = .failOnFirstError →
      (UnmarshalFromJSONMap opts
          (.structPtr (.cons n (.customT true errId) .nil) init) (some [(n, w)])).err =
        some (.single (.custom errId)) ∧
      (UnmarshalFromJSONMap opts
          (.structPtr (.cons n (.customT true errId) .nil) init) (some [(n, w)])).map =
        none) ∧
    (opts.mode = .allowMultipleErrors →
      (UnmarshalFromJSONMap opts
          (.structPtr (.cons n (.customT true errId) .nil) init) (some [(n, w)])).err =
        some (.multiple [.custom errId])) := by
  refine ⟨rfl, rfl, ?_, ?_⟩ <;>
  · intro hmode
    have hp : entryPasses
        (structFieldCoercers opts (.cons n (.customT true errId) .nil)) [] (n, w) = true := by
      simp [entryPasses, entryRes, fieldByName, structFieldCoercers, valueByReflectType]
    have hcont : ∃ st1, popStep opts
        (structFieldCoercers opts (.cons n (.customT true errId) .nil)) []
        ⟨init, some [], []⟩ n w = .cont st1 :=
      popStep_cont_of_passes hp rfl
    obtain ⟨st1, hstep⟩ := hcont
    have hrun : populateStruct opts
        (structFieldCoercers opts (.cons n (.customT true errId) .nil)) [] [(n, w)]
        ⟨init, some [], []⟩ = (st1, .done) := by
      show (match popStep opts
          (structFieldCoercers opts (.cons n (.customT true errId) .nil)) []
          ⟨init, some [], []⟩ n w with
        | StepRes.cont st' => populateStruct opts
            (structFieldCoercers opts (.cons n (.customT true errId) .nil)) [] [] st'
        | StepRes.halt st' out => (st', out)) = (st1, .done)
      rw [hstep]
      rfl
    have herrs : st1.errs = [.custom errId] := by
      have := populate_errs_done _ _ _ hrun
      rw [this]
      simp [entriesErrs, entryErrs, entryRes, fieldByName, structFieldCoercers,
        valueByReflectType]
    rw [unmarshal_run_eq opts _ init _ st1 .done hrun (by intro h; cases h), hmode]
    simp [herrs]

end Marshmallow
